import Mathlib

/-!
# goci-wrapper: path grammar, composition cache, image composer, request dispatcher

A shallow embedding of `types.go`, `cache.go`, `server.go` and `processor.go`.

Go strings are modelled as lists of characters.  Every separator the program looks
for (`/`, `:`, `|`, the literals of the two route patterns, the newline excluded by
`.`) is ASCII, so positions of separators are the same in the byte view and in the
character view of a string.
-/

set_option autoImplicit false

namespace Goci

/-- A Go `string`. -/
abbrev Str := List Char

/-! ## The part of Go's `strings` package used by `server.go` -/

/-- Go `strings.HasPrefix(s, sub)`. -/
def HasPrefix : Str → Str → Bool
  | _, [] => true
  | [], _ :: _ => false
  | c :: cs, d :: ds => c == d && HasPrefix cs ds

/-- Go `strings.Contains(s, sub)`: `sub` occurs at some position of `s`. -/
def Contains : Str → Str → Bool
  | [], sub => HasPrefix [] sub
  | c :: cs, sub => HasPrefix (c :: cs) sub || Contains cs sub

/-- Go `strings.LastIndex(s, sub)`: the position of the last occurrence of `sub` in `s`,
or `-1` when there is none. -/
def LastIndex : Str → Str → Int
  | [], sub => if HasPrefix [] sub then 0 else -1
  | c :: cs, sub =>
    let r := LastIndex cs sub
    if 0 ≤ r then r + 1
    else if HasPrefix (c :: cs) sub then 0
    else -1

/-- Number of positions of `s` at which `sub` occurs (occurrences may overlap). -/
def occurrences (sub : Str) : Str → Nat
  | [] => if HasPrefix [] sub then 1 else 0
  | c :: cs => (if HasPrefix (c :: cs) sub then 1 else 0) + occurrences sub cs

/-! ## The part of Go's `regexp` package used by `types.go` and `server.go`

The two patterns of `types.go` are built from `^`, `$`, literal characters and the
capturing group `(.+)`.  Go's `regexp` returns the match a backtracking search finds
first (leftmost, and for `+` the longest repetition that lets the rest match); `.`
matches every character except the newline; `$` matches at the end of the text only. -/

/-- One item of a pattern. -/
inductive Tok where
  /-- `^` -/
  | bol
  /-- `$` -/
  | eol
  /-- a literal character -/
  | lit (c : Char)
  /-- the capturing group `(.+)` -/
  | capDotPlus
  deriving DecidableEq, Repr

/-- A compiled pattern: the sequence of its items. -/
abbrev Regexp := List Tok

/-- The items of a literal piece of a pattern. -/
def lits (s : String) : Regexp := s.toList.map Tok.lit

/-- Greedy `(.+)` in front of the continuation `k`: `acc` is what the group has
consumed so far; one more non-newline character is consumed, then the longer
repetitions are tried before the group is closed and `k` runs on the rest.  The
result is the list of captures (this group first) and the unconsumed text. -/
def dotPlus (k : Str → Option (List Str × Str)) : Str → Str → Option (List Str × Str)
  | _, [] => none
  | acc, c :: cs =>
    if c = '\n' then none
    else
      match dotPlus k (acc ++ [c]) cs with
      | some r => some r
      | none =>
        match k cs with
        | some (caps, rest) => some ((acc ++ [c]) :: caps, rest)
        | none => none

/-- Backtracking match of a pattern at the current position.  `atStart` tells
whether the position is the beginning of the text.  On success: the captured
groups in order, and the text left after the match. -/
def matchHere : Regexp → Bool → Str → Option (List Str × Str)
  | [], _, s => some ([], s)
  | Tok.bol :: ts, atStart, s => if atStart then matchHere ts atStart s else none
  | Tok.eol :: ts, atStart, s =>
    match s with
    | [] => matchHere ts atStart []
    | _ :: _ => none
  | Tok.lit c :: ts, _, s =>
    match s with
    | [] => none
    | x :: xs => if x = c then matchHere ts false xs else none
  | Tok.capDotPlus :: ts, _, s => dotPlus (matchHere ts false) [] s

/-- Leftmost search: try the current position, then the following ones. -/
def findAt (re : Regexp) : Bool → Str → Option (List Str)
  | atStart, s =>
    match matchHere re atStart s with
    | some (caps, rest) => some (s.take (s.length - rest.length) :: caps)
    | none =>
      match s with
      | [] => none
      | _ :: cs => findAt re false cs

/-- Go `(*Regexp).FindStringSubmatch`: the text of the leftmost match followed by
the captured groups; the empty (nil) slice when there is no match. -/
def FindStringSubmatch (re : Regexp) (s : Str) : List Str :=
  (findAt re true s).getD []

/-- Go `(*Regexp).MatchString`. -/
def MatchString (re : Regexp) (s : Str) : Bool :=
  (findAt re true s).isSome

/-! ## types.go -/

def WrapperLabelKey : Str := "org.goci.wrapper".toList

/-- The pattern `^/v2/wrap/(.+)/with/(.+)$`. -/
def WrappingRegexp : Regexp :=
  [Tok.bol] ++ lits "/v2/wrap/" ++ [Tok.capDotPlus] ++ lits "/with/" ++ [Tok.capDotPlus]
    ++ [Tok.eol]

/-- The pattern `^/v2/wrap/(.+)/with/(.+)/manifests/(.+)$`. -/
def ManifestRequestRegexp : Regexp :=
  [Tok.bol] ++ lits "/v2/wrap/" ++ [Tok.capDotPlus] ++ lits "/with/" ++ [Tok.capDotPlus]
    ++ lits "/manifests/" ++ [Tok.capDotPlus] ++ [Tok.eol]

/-- Parsed image reference information. -/
structure ImageRef where
  Path : Str
  UpstreamImage : Str
  TargetImage : Str
  deriving DecidableEq, Repr

/-! ## server.go: path grammar -/

/-- Converts "repo/name/tag" to "repo/name:tag". -/
def imageSlashTagToImage (image : Str) : Str :=
  let lastSlash := LastIndex image "/".toList
  if lastSlash = -1 then image
  else image.take lastSlash.toNat ++ ":".toList ++ image.drop (lastSlash.toNat + 1)

/-- Parses the request path and extracts image information. -/
def ParseImageRef (path : Str) : Except String ImageRef :=
  let ms := FindStringSubmatch ManifestRequestRegexp path
  if ms.length ≠ 4 then
    Except.error "invalid path, expected /wrap/\x7bupstream-image\x7d/with/\x7btarget-image\x7d"
  else if !Contains (ms.getD 1 []) "/".toList then
    Except.error "invalid upstream image format"
  else if !Contains (ms.getD 2 []) "/".toList then
    Except.error "invalid target image format"
  else
    Except.ok
      { Path := "/wrap/".toList ++ ms.getD 1 [] ++ "/with/".toList ++ ms.getD 2 []
        UpstreamImage := imageSlashTagToImage (ms.getD 1 [])
        TargetImage := imageSlashTagToImage (ms.getD 2 []) }

/-- The wrap-manifest path `/v2/wrap/{u}/with/{t}/manifests/{g}`. -/
def manifestPath (u t g : Str) : Str :=
  "/v2/wrap/".toList ++ u ++ "/with/".toList ++ t ++ "/manifests/".toList ++ g

/-! ## The manifest grammar, declaratively -/

/-- A text `(.+)` can capture: non-empty and without newline. -/
def Seg (x : Str) : Prop := x ≠ [] ∧ '\n' ∉ x

/-- The declarative grammar `/v2/wrap/{upstream}/with/{target}/manifests/{tag}` with
non-empty newline-free segments. -/
def ManifestGrammar (p : Str) : Prop :=
  ∃ u t g, p = "/v2/wrap/".toList ++ (u ++ ("/with/".toList ++ (t ++ ("/manifests/".toList ++ g))))
    ∧ Seg u ∧ Seg t ∧ Seg g

/-- The shape `(.+)/manifests/(.+)$` of the text after `/with/`. -/
def TailShape (s : Str) : Prop :=
  ∃ t g, s = t ++ ("/manifests/".toList ++ g) ∧ Seg t ∧ Seg g

/-- The path `p` is matched by the manifest pattern with the groups `u`, `t`, `g`:
`p` is `/v2/wrap/u/with/t/manifests/g`, each group is non-empty and newline-free,
and each of `u`, `t` is the longest group after which the rest still matches. -/
def GreedyManifest (p u t g : Str) : Prop :=
  p = "/v2/wrap/".toList ++ (u ++ ("/with/".toList ++ (t ++ ("/manifests/".toList ++ g)))) ∧
  Seg u ∧ Seg t ∧ Seg g ∧
  (∀ t' g', t ++ ("/manifests/".toList ++ g) = t' ++ ("/manifests/".toList ++ g') →
    t.length < t'.length → '\n' ∉ t' → ¬ Seg g') ∧
  (∀ u' s', u ++ ("/with/".toList ++ (t ++ ("/manifests/".toList ++ g)))
      = u' ++ ("/with/".toList ++ s') →
    u.length < u'.length → '\n' ∉ u' → ¬ TailShape s')

/-! ## cache.go -/

/-- The cache of wrapped images: the Go `map[string]bool` behind the lock. -/
structure Cache where
  cache : Str → Option Bool

/-- Creates a new cache instance. -/
def NewCache : Cache := { cache := fun _ => none }

/-- Checks if a key exists in the cache. -/
def Cache.Has (c : Cache) (key : Str) : Bool := (c.cache key).isSome

/-- Adds a key to the cache. -/
def Cache.Set (c : Cache) (key : Str) : Cache :=
  { cache := fun k => if k = key then some true else c.cache k }

/-- Generates a cache key from upstream and target images. -/
def Cache.Key (upstream target : Str) : Str := upstream ++ "||".toList ++ target

/-- One operation on the cache. -/
inductive CacheOp where
  | has (key : Str)
  | set (key : Str)

/-- The cache after one operation (`Has` only reads). -/
def CacheOp.apply (c : Cache) : CacheOp → Cache
  | CacheOp.has _ => c
  | CacheOp.set key => c.Set key

/-- The cache after a sequence of operations, run in order. -/
def runOps (c : Cache) (ops : List CacheOp) : Cache := ops.foldl CacheOp.apply c

/-! ## The image library (go-containerregistry) at its interface

`v1.Image` is an interface; an image value is the record of what its methods
`Layers()` and `ConfigFile()` return.  The registry and the mutation functions are
external collaborators: their failures are inputs of the model. -/

/-- A `v1.Layer`, identified by its digest. -/
structure Layer where
  digest : Str
  deriving DecidableEq, Repr

/-- The fields of `v1.Config` the program reads or writes, and `Env` as one of the
fields it carries over. -/
structure Config where
  Entrypoint : List Str
  Cmd : List Str
  Env : List Str
  Labels : Str → Option Str

/-- A `v1.ConfigFile`. -/
structure ConfigFile where
  Config : Config

/-- A `v1.Image`: the results of its methods. -/
structure Image where
  Layers : Except String (List Layer)
  ConfigFile : Except String ConfigFile

/-- The external collaborators: reference parsing, the remote registries, the
failures of the mutation functions, and the push to the backing store. -/
structure World where
  /-- `name.ParseReference` -/
  ParseReference : Str → Except String Str
  /-- `remote.Image`: pull -/
  remoteImage : Str → Except String Image
  /-- the error of `mutate.AppendLayers`, if it fails -/
  appendLayersErr : Image → Layer → Option String
  /-- the error of `mutate.ConfigFile`, if it fails -/
  configFileErr : Image → ConfigFile → Option String
  /-- `remote.Write`: push to the backing store; the error, if it fails -/
  Write : Str → Image → Option String

/-- Go `mutate.AppendLayers(base, layer)`: on success the image whose layers are those
of `base` followed by `layer`; entrypoint, cmd, env and labels are those of `base`. -/
def mutate.AppendLayers (W : World) (base : Image) (layer : Layer) : Except String Image :=
  match W.appendLayersErr base layer with
  | some err => Except.error err
  | none =>
    Except.ok
      { Layers := base.Layers.map (fun ls => ls ++ [layer])
        ConfigFile := base.ConfigFile }

/-- Go `mutate.ConfigFile(base, cfg)`: on success the image `base` with `cfg` as its
config file. -/
def mutate.ConfigFile (W : World) (base : Image) (cfg : ConfigFile) : Except String Image :=
  match W.configFileErr base cfg with
  | some err => Except.error err
  | none => Except.ok { Layers := base.Layers, ConfigFile := Except.ok cfg }

/-- A network operation on an image, as performed by the program. -/
inductive Event where
  /-- `remote.Image(ref)` -/
  | pull (ref : Str)
  /-- `remote.Write(ref, img)` -/
  | push (ref : Str) (img : Image)

/-! ## processor.go -/

/-- Pulls an image from a remote registry. -/
def pullImage (W : World) (imageRef : Str) : Except String Image × List Event :=
  match W.ParseReference imageRef with
  | Except.error err =>
    (Except.error ("failed to parse image reference " ++ String.mk imageRef ++ ": " ++ err), [])
  | Except.ok ref =>
    match W.remoteImage ref with
    | Except.error err =>
      (Except.error ("failed to pull image " ++ String.mk imageRef ++ ": " ++ err),
        [Event.pull ref])
    | Except.ok img => (Except.ok img, [Event.pull ref])

/-- Wraps the upstream image with the target wrapper image.  The result comes with
the pulls performed. -/
def WrapImage (W : World) (upstreamImage targetImage : Str) :
    Except String Image × List Event :=
  match pullImage W upstreamImage with
  | (Except.error err, ev) => (Except.error err, ev)
  | (Except.ok imageToWrap, ev1) =>
    match pullImage W targetImage with
    | (Except.error err, ev2) => (Except.error err, ev1 ++ ev2)
    | (Except.ok wrapperImage, ev2) =>
      let ev := ev1 ++ ev2
      match wrapperImage.ConfigFile with
      | Except.error err => (Except.error ("failed to get wrapper image config: " ++ err), ev)
      | Except.ok cfg =>
        match cfg.Config.Labels WrapperLabelKey with
        | none =>
          (Except.error ("wrapper image missing \x27" ++ String.mk WrapperLabelKey ++ "\x27 label"),
            ev)
        | some wrapperScriptPath =>
          match wrapperImage.Layers with
          | Except.error _ => (Except.error "wrapper image has no layers", ev)
          | Except.ok wrapperLayers =>
            match wrapperLayers.getLast? with
            | none => (Except.error "wrapper image has no layers", ev)
            | some wrapperLayer =>
              match mutate.AppendLayers W imageToWrap wrapperLayer with
              | Except.error err =>
                (Except.error ("failed to append wrapper layer: " ++ err), ev)
              | Except.ok appendedImage =>
                match appendedImage.ConfigFile with
                | Except.error err =>
                  (Except.error ("failed to get appended image config: " ++ err), ev)
                | Except.ok cfgOrig =>
                  let cfgNew : ConfigFile :=
                    { cfgOrig with
                      Config :=
                        { cfgOrig.Config with
                          Cmd := cfgOrig.Config.Entrypoint ++ cfgOrig.Config.Cmd
                          Entrypoint := [wrapperScriptPath] } }
                  match mutate.ConfigFile W appendedImage cfgNew with
                  | Except.error err =>
                    (Except.error ("failed to update image config: " ++ err), ev)
                  | Except.ok finalImage => (Except.ok finalImage, ev)

/-! ## server.go: request dispatcher

The state a request can change is the processor's cache.  The `log.Printf` lines
write to the process log only and are left out. -/

/-- What the client gets: the response of the backing registry (the request was
forwarded to it), or an `http.Error` with its message and status code. -/
inductive Response where
  | forwarded
  | error (msg : String) (code : Nat)
  deriving DecidableEq, Repr

/-- The result of handling one request: the cache afterwards, the response, and the
network operations performed, in order. -/
structure Outcome where
  cache : Cache
  response : Response
  events : List Event

/-- Handles the image wrapping HTTP request with path `path`, starting from the
processor's cache `cache`. -/
def HandleWrapRequest (W : World) (cache : Cache) (path : Str) : Outcome :=
  if !MatchString WrappingRegexp path then
    { cache := cache, response := Response.forwarded, events := [] }
  else if !MatchString ManifestRequestRegexp path then
    { cache := cache, response := Response.forwarded, events := [] }
  else
    match ParseImageRef path with
    | Except.error err => { cache := cache, response := Response.error err 400, events := [] }
    | Except.ok imageRef =>
      let cacheKey := Cache.Key imageRef.UpstreamImage imageRef.TargetImage
      if cache.Has cacheKey then
        { cache := cache, response := Response.forwarded, events := [] }
      else
        match WrapImage W imageRef.UpstreamImage imageRef.TargetImage with
        | (Except.error err, ev) =>
          { cache := cache, response := Response.error err 500, events := ev }
        | (Except.ok finalImage, ev) =>
          match W.ParseReference ("localhost:5000".toList ++ imageRef.Path) with
          | Except.error err =>
            { cache := cache
              response := Response.error ("failed to parse target reference: " ++ err) 500
              events := ev }
          | Except.ok targetRef =>
            match W.Write targetRef finalImage with
            | some err =>
              { cache := cache
                response := Response.error ("failed to push wrapped image: " ++ err) 500
                events := ev ++ [Event.push targetRef finalImage] }
            | none =>
              { cache := cache.Set cacheKey
                response := Response.forwarded
                events := ev ++ [Event.push targetRef finalImage] }

/-! ## An example world -/

/-- An upstream image with two layers, entrypoint `["/bin/app"]` and cmd `["--flag"]`. -/
def exampleUpstream : Image :=
  { Layers := Except.ok [{ digest := "sha256:u1".toList }, { digest := "sha256:u2".toList }]
    ConfigFile := Except.ok
      { Config :=
          { Entrypoint := ["/bin/app".toList]
            Cmd := ["--flag".toList]
            Env := ["PATH=/bin".toList]
            Labels := fun _ => none } } }

/-- A wrapper image with two layers and the label pointing at "/wrap/run.sh". -/
def exampleWrapper : Image :=
  { Layers := Except.ok [{ digest := "sha256:w1".toList }, { digest := "sha256:w2".toList }]
    ConfigFile := Except.ok
      { Config :=
          { Entrypoint := []
            Cmd := []
            Env := []
            Labels := fun k => if k = WrapperLabelKey then some "/wrap/run.sh".toList else none } } }

/-- A misbuilt wrapper image: no layer and no label. -/
def exampleBadWrapper : Image :=
  { Layers := Except.ok []
    ConfigFile := Except.ok
      { Config := { Entrypoint := [], Cmd := [], Env := [], Labels := fun _ => none } } }

/-- The composition of `exampleUpstream` and `exampleWrapper`. -/
def exampleComposed : Image :=
  { Layers := Except.ok
      [{ digest := "sha256:u1".toList }, { digest := "sha256:u2".toList },
        { digest := "sha256:w2".toList }]
    ConfigFile := Except.ok
      { Config :=
          { Entrypoint := ["/wrap/run.sh".toList]
            Cmd := ["/bin/app".toList, "--flag".toList]
            Env := ["PATH=/bin".toList]
            Labels := fun _ => none } } }

/-- A world in which three images can be pulled and no collaborator step fails. -/
def exampleWorld : World :=
  { ParseReference := fun r => Except.ok r
    remoteImage := fun r =>
      if r = "reg.example/ns/app:1.0".toList then Except.ok exampleUpstream
      else if r = "reg.example/ns/wrapper:latest".toList then Except.ok exampleWrapper
      else if r = "reg.example/ns/bad:latest".toList then Except.ok exampleBadWrapper
      else Except.error "not found"
    appendLayersErr := fun _ _ => none
    configFileErr := fun _ _ => none
    Write := fun _ _ => none }

/-- A world in which the push to the backing store fails. -/
def examplePushFails : World :=
  { exampleWorld with Write := fun _ _ => some "connection refused" }

/-! ## Lemmas on the string functions -/

theorem HasPrefix_iff (s sub : Str) : HasPrefix s sub = true ↔ ∃ t, s = sub ++ t := by
  induction sub generalizing s with
  | nil => simp [HasPrefix]
  | cons d ds ih =>
    cases s with
    | nil => simp [HasPrefix]
    | cons c cs =>
      simp only [HasPrefix, Bool.and_eq_true, beq_iff_eq, ih, List.cons_append, List.cons.injEq]
      constructor
      · rintro ⟨h, t, ht⟩
        exact ⟨t, h, ht⟩
      · rintro ⟨t, h, ht⟩
        exact ⟨h, t, ht⟩

theorem HasPrefix_append (sub t : Str) : HasPrefix (sub ++ t) sub = true :=
  (HasPrefix_iff _ _).2 ⟨t, rfl⟩

theorem Contains_iff (s sub : Str) :
    Contains s sub = true ↔ ∃ a b, s = a ++ sub ++ b := by
  induction s with
  | nil =>
    simp only [Contains, HasPrefix_iff]
    constructor
    · rintro ⟨t, ht⟩
      exact ⟨[], t, by simpa using ht⟩
    · rintro ⟨a, b, h⟩
      have h1 : a ++ sub ++ b = [] := h.symm
      simp only [List.append_eq_nil] at h1
      exact ⟨[], by simp [h1.1.2]⟩
  | cons c cs ih =>
    simp only [Contains, Bool.or_eq_true, HasPrefix_iff, ih]
    constructor
    · rintro (⟨t, ht⟩ | ⟨a, b, h⟩)
      · exact ⟨[], t, by simpa using ht⟩
      · exact ⟨c :: a, b, by simp [h]⟩
    · rintro ⟨a, b, h⟩
      cases a with
      | nil => exact Or.inl ⟨b, by simpa using h⟩
      | cons x a =>
        simp only [List.cons_append, List.cons.injEq] at h
        exact Or.inr ⟨a, b, h.2⟩

theorem Contains_singleton (s : Str) (c : Char) : Contains s [c] = true ↔ c ∈ s := by
  rw [Contains_iff]
  constructor
  · rintro ⟨a, b, h⟩
    simp [h]
  · intro h
    obtain ⟨a, b, h⟩ := List.append_of_mem h
    exact ⟨a, b, by simp [h]⟩

theorem LastIndex_not_mem (s : Str) (c : Char) (h : c ∉ s) : LastIndex s [c] = -1 := by
  induction s with
  | nil => simp [LastIndex, HasPrefix]
  | cons x xs ih =>
    simp only [List.mem_cons, not_or] at h
    have hx : (x == c) = false := by
      simp only [beq_eq_false_iff_ne, ne_eq]
      exact fun e => h.1 e.symm
    simp [LastIndex, ih h.2, HasPrefix, hx]

theorem LastIndex_append (a b : Str) (c : Char) (h : c ∉ b) :
    LastIndex (a ++ c :: b) [c] = (a.length : Int) := by
  induction a with
  | nil => simp [LastIndex, LastIndex_not_mem b c h, HasPrefix]
  | cons x xs ih =>
    have e : LastIndex (x :: xs ++ c :: b) [c]
        = if 0 ≤ LastIndex (xs ++ c :: b) [c] then LastIndex (xs ++ c :: b) [c] + 1
          else if HasPrefix (x :: (xs ++ c :: b)) [c] then 0 else -1 := rfl
    rw [e, ih]
    simp

/-- A string containing `c` splits at its last `c`. -/
theorem exists_last_split (s : Str) (c : Char) (h : c ∈ s) :
    ∃ a b, s = a ++ c :: b ∧ c ∉ b := by
  induction s with
  | nil => simp at h
  | cons x xs ih =>
    by_cases hx : c ∈ xs
    · obtain ⟨a, b, hab, hb⟩ := ih hx
      exact ⟨x :: a, b, by simp [hab], hb⟩
    · have : c = x := by
        rcases List.mem_cons.1 h with h1 | h1
        · exact h1
        · exact absurd h1 hx
      exact ⟨[], xs, by simp [this], hx⟩

theorem imageSlashTagToImage_not_mem (s : Str) (h : '/' ∉ s) : imageSlashTagToImage s = s := by
  have h1 : LastIndex s ['/'] = -1 := LastIndex_not_mem s '/' h
  simp [imageSlashTagToImage, h1]

theorem imageSlashTagToImage_append (a b : Str) (h : '/' ∉ b) :
    imageSlashTagToImage (a ++ '/' :: b) = a ++ ':' :: b := by
  have h1 : LastIndex (a ++ '/' :: b) ['/'] = (a.length : Int) :=
    LastIndex_append a b '/' h
  have h2 : ¬ ((a.length : Int) = -1) := by omega
  simp [imageSlashTagToImage, h1, h2]

/-! ## Claims: path grammar -/

/-- C9: `imageSlashTagToImage` is a total function that replaces only the last `/`:
a string without `/` is returned unchanged; a string `a ++ "/" ++ b` with no `/` in `b`
becomes `a ++ ":" ++ b`; the result always has the length of the argument;
"reg.example/ns/app/1.0" becomes "reg.example/ns/app:1.0" and "app" stays "app". -/
theorem C9_imageSlashTagToImage_last_slash :
    (∀ s : Str, '/' ∉ s → imageSlashTagToImage s = s) ∧
    (∀ a b : Str, '/' ∉ b → imageSlashTagToImage (a ++ "/".toList ++ b) = a ++ ":".toList ++ b) ∧
    (∀ s : Str, (imageSlashTagToImage s).length = s.length) ∧
    imageSlashTagToImage "reg.example/ns/app/1.0".toList = "reg.example/ns/app:1.0".toList ∧
    imageSlashTagToImage "app".toList = "app".toList := by
  refine ⟨imageSlashTagToImage_not_mem, ?_, ?_, by decide, by decide⟩
  · intro a b h
    have h1 : "/".toList = ['/'] := rfl
    have h2 : ":".toList = [':'] := rfl
    simpa [h1, h2] using imageSlashTagToImage_append a b h
  · intro s
    by_cases h : '/' ∈ s
    · obtain ⟨a, b, hab, hb⟩ := exists_last_split s '/' h
      rw [hab, imageSlashTagToImage_append a b hb]
      simp
    · rw [imageSlashTagToImage_not_mem s h]

/-- Witness of C9 at `a = "reg.example/ns/app"`, `b = "1.0"`. -/
theorem C9_imageSlashTagToImage_last_slash_witness :
    imageSlashTagToImage ("reg.example/ns/app".toList ++ "/".toList ++ "1.0".toList)
      = "reg.example/ns/app".toList ++ ":".toList ++ "1.0".toList :=
  C9_imageSlashTagToImage_last_slash.2.1 "reg.example/ns/app".toList "1.0".toList (by decide)

/-! ## Claims: composition cache -/

theorem takeWhile_bar (a rest : Str) (h : '|' ∉ a) :
    List.takeWhile (fun c => c != '|') (a ++ '|' :: rest) = a := by
  induction a with
  | nil => simp [List.takeWhile]
  | cons x xs ih =>
    simp only [List.mem_cons, not_or] at h
    have hx : (x != '|') = true := by
      simp only [bne_iff_ne, ne_eq]
      exact fun e => h.1 e.symm
    simp [List.takeWhile, hx, ih h.2]

theorem Key_eq (a b : Str) : Cache.Key a b = a ++ '|' :: '|' :: b := by
  show (a ++ ['|', '|']) ++ b = a ++ '|' :: '|' :: b
  simp

/-- C7, as stated, fails: the distinct strings "" and "|" give the same key "|||" in
both orders. -/
theorem C7_Key_order_counterexample :
    "".toList ≠ "|".toList ∧
      Cache.Key "".toList "|".toList = Cache.Key "|".toList "".toList := by
  decide

/-- C7, amended: for all strings `a ≠ b` that do not contain the character `|`,
`Key a b ≠ Key b a`, where `Key upstream target = upstream ++ "||" ++ target`. -/
theorem C7_Key_order_sensitive (a b : Str) (ha : '|' ∉ a) (hb : '|' ∉ b) (hab : a ≠ b) :
    Cache.Key a b ≠ Cache.Key b a ∧ Cache.Key a b = a ++ "||".toList ++ b := by
  refine ⟨?_, rfl⟩
  intro h
  rw [Key_eq, Key_eq] at h
  have h1 := congrArg (List.takeWhile (fun c => c != '|')) h
  rw [takeWhile_bar a _ ha, takeWhile_bar b _ hb] at h1
  exact hab h1

/-- Witness of the amended C7 at `a = "reg/app:1"`, `b = "reg/wrap:2"`. -/
theorem C7_Key_order_sensitive_witness :
    Cache.Key "reg/app:1".toList "reg/wrap:2".toList
      ≠ Cache.Key "reg/wrap:2".toList "reg/app:1".toList :=
  (C7_Key_order_sensitive "reg/app:1".toList "reg/wrap:2".toList
    (by decide) (by decide) (by decide)).1

theorem Has_Set (c : Cache) (k k' : Str) :
    (c.Set k).Has k' = true ↔ k' = k ∨ c.Has k' = true := by
  unfold Cache.Has Cache.Set
  by_cases h : k' = k
  · simp [h]
  · simp [h]

theorem Has_runOps (ops : List CacheOp) (c : Cache) (k : Str) (h : c.Has k = true) :
    (runOps c ops).Has k = true := by
  induction ops generalizing c with
  | nil => exact h
  | cons op ops ih =>
    have e : runOps c (op :: ops) = runOps (CacheOp.apply c op) ops := rfl
    rw [e]
    apply ih
    cases op with
    | has _ => exact h
    | set key => exact (Has_Set c key k).2 (Or.inr h)

/-- C10: a cache made by `NewCache` has no key; after `Set k` on a cache `c`, `Has k'`
holds exactly when `k' = k` or `Has k'` held in `c`; `Set k` twice leaves the same
state as `Set k` once; a marked key stays marked under every later sequence of `Has`
and `Set` operations. -/
theorem C10_Set_marks_one_key_forever :
    (∀ k : Str, NewCache.Has k = false) ∧
    (∀ (c : Cache) (k k' : Str), (c.Set k).Has k' = true ↔ k' = k ∨ c.Has k' = true) ∧
    (∀ (c : Cache) (k : Str), (c.Set k).Set k = c.Set k) ∧
    (∀ (c : Cache) (k : Str) (ops : List CacheOp),
      c.Has k = true → (runOps c ops).Has k = true) := by
  refine ⟨fun k => rfl, Has_Set, ?_, fun c k ops h => Has_runOps ops c k h⟩
  intro c k
  unfold Cache.Set
  congr 1
  funext k'
  by_cases h : k' = k <;> simp [h]

/-- Witness of C10: the key "a", marked in a fresh cache, is still marked after
`Set "b"`, `Has "a"`, `Set "a"`. -/
theorem C10_Set_marks_one_key_forever_witness :
    (runOps (NewCache.Set "a".toList)
      [CacheOp.set "b".toList, CacheOp.has "a".toList, CacheOp.set "a".toList]).Has
        "a".toList = true :=
  C10_Set_marks_one_key_forever.2.2.2 (NewCache.Set "a".toList) "a".toList
    [CacheOp.set "b".toList, CacheOp.has "a".toList, CacheOp.set "a".toList] (by decide)

/-! ## Lemmas on the matcher -/

theorem dotPlus_cons (k : Str → Option (List Str × Str)) (acc : Str) (c : Char) (cs : Str) :
    dotPlus k acc (c :: cs) =
      if c = '\n' then none
      else
        match dotPlus k (acc ++ [c]) cs with
        | some r => some r
        | none =>
          match k cs with
          | some (caps, rest) => some ((acc ++ [c]) :: caps, rest)
          | none => none := rfl

/-- The group `(.+)` fails exactly when the continuation fails after every non-empty
newline-free prefix. -/
theorem dotPlus_eq_none_iff (k : Str → Option (List Str × Str)) (s acc : Str) :
    dotPlus k acc s = none ↔
      ∀ x r, s = x ++ r → x ≠ [] → '\n' ∉ x → k r = none := by
  induction s generalizing acc with
  | nil =>
    constructor
    · intro _ x r h hx
      have h1 : x ++ r = [] := h.symm
      simp only [List.append_eq_nil] at h1
      exact absurd h1.1 hx
    · intro _
      rfl
  | cons c cs ih =>
    rw [dotPlus_cons]
    by_cases hc : c = '\n'
    · simp only [hc, if_true, true_iff]
      intro x r h hx hnl
      cases x with
      | nil => exact absurd rfl hx
      | cons y ys =>
        simp only [List.cons_append, List.cons.injEq] at h
        exact absurd (List.mem_cons.2 (Or.inl h.1)) hnl
    · simp only [hc, if_false]
      constructor
      · intro h x r hxr hx hnl
        cases x with
        | nil => exact absurd rfl hx
        | cons y ys =>
          simp only [List.cons_append, List.cons.injEq] at hxr
          cases hd : dotPlus k (acc ++ [c]) cs with
          | some r0 => simp [hd] at h
          | none =>
            rw [hd] at h
            by_cases hys : ys = []
            · subst hys
              have e : r = cs := by simpa using hxr.2.symm
              subst e
              cases hk : k r with
              | none => rfl
              | some v => simp [hk] at h
            · exact (ih (acc ++ [c])).1 hd ys r hxr.2 hys
                (fun hm => hnl (List.mem_cons_of_mem _ hm))
      · intro h
        have h1 : dotPlus k (acc ++ [c]) cs = none := by
          apply (ih (acc ++ [c])).2
          intro x r hxr hx hnl
          apply h (c :: x) r (by simp [hxr]) (by simp)
          simp only [List.mem_cons, not_or]
          exact ⟨fun e => hc e.symm, hnl⟩
        have h2 : k cs = none := h [c] cs rfl (by simp) (by simpa using fun e => hc e.symm)
        simp [h1, h2]

/-- The group `(.+)` succeeds exactly with its longest non-empty newline-free prefix
after which the continuation succeeds; the prefix is the first capture. -/
theorem dotPlus_eq_some_iff (k : Str → Option (List Str × Str)) (s acc : Str)
    (res : List Str × Str) :
    dotPlus k acc s = some res ↔
      ∃ x r caps rest, s = x ++ r ∧ x ≠ [] ∧ '\n' ∉ x ∧ k r = some (caps, rest) ∧
        res = ((acc ++ x) :: caps, rest) ∧
        ∀ x' r', s = x' ++ r' → x.length < x'.length → '\n' ∉ x' → k r' = none := by
  induction s generalizing acc with
  | nil =>
    constructor
    · intro h
      exact absurd h (by simp [dotPlus])
    · rintro ⟨x, r, _, _, h, hx, _⟩
      have h1 : x ++ r = [] := h.symm
      simp only [List.append_eq_nil] at h1
      exact absurd h1.1 hx
  | cons c cs ih =>
    rw [dotPlus_cons]
    by_cases hc : c = '\n'
    · simp only [hc, if_true]
      constructor
      · intro h
        exact absurd h (by simp)
      · rintro ⟨x, r, _, _, h, hx, hnl, _⟩
        cases x with
        | nil => exact absurd rfl hx
        | cons y ys =>
          simp only [List.cons_append, List.cons.injEq] at h
          exact absurd (List.mem_cons.2 (Or.inl h.1)) hnl
    · simp only [hc, if_false]
      have hc' : '\n' ∉ [c] := by simpa using fun e => hc e.symm
      cases hd : dotPlus k (acc ++ [c]) cs with
      | none =>
        have hn := (dotPlus_eq_none_iff k cs (acc ++ [c])).1 hd
        constructor
        · intro h
          cases hk : k cs with
          | none => simp [hk] at h
          | some v =>
            obtain ⟨caps, rest⟩ := v
            simp only [hk, Option.some.injEq] at h
            refine ⟨[c], cs, caps, rest, rfl, by simp, hc', hk, h.symm, ?_⟩
            intro x' r' hx' hlen hnl
            cases x' with
            | nil => simp at hlen
            | cons y ys =>
              simp only [List.cons_append, List.cons.injEq] at hx'
              apply hn ys r' hx'.2
              · intro e
                simp [e] at hlen
              · exact fun hm => hnl (List.mem_cons_of_mem _ hm)
        · rintro ⟨x, r, caps, rest, h, hx, hnl, hk, hres, _⟩
          cases x with
          | nil => exact absurd rfl hx
          | cons y ys =>
            simp only [List.cons_append, List.cons.injEq] at h
            by_cases hys : ys = []
            · subst hys
              have e : r = cs := by simpa using h.2.symm
              subst e
              simp [hk, hres, h.1]
            · have := hn ys r h.2 hys (fun hm => hnl (List.mem_cons_of_mem _ hm))
              rw [this] at hk
              exact absurd hk (by simp)
      | some r0 =>
        simp only [Option.some.injEq]
        constructor
        · intro h
          subst h
          obtain ⟨x, r, caps, rest, h1, hx, hnl, hk, hres, hmax⟩ := (ih (acc ++ [c]) ).1 hd
          refine ⟨c :: x, r, caps, rest, by simp [h1], by simp, ?_, hk, by simp [hres], ?_⟩
          · simp only [List.mem_cons, not_or]
            exact ⟨fun e => hc e.symm, hnl⟩
          · intro x' r' hx' hlen hnl'
            cases x' with
            | nil => simp at hlen
            | cons y ys =>
              simp only [List.cons_append, List.cons.injEq] at hx'
              apply hmax ys r' hx'.2
              · simpa using hlen
              · exact fun hm => hnl' (List.mem_cons_of_mem _ hm)
        · rintro ⟨x, r, caps, rest, h, hx, hnl, hk, hres, hmax⟩
          cases x with
          | nil => exact absurd rfl hx
          | cons y ys =>
            simp only [List.cons_append, List.cons.injEq] at h
            have hnl2 : '\n' ∉ ys := fun hm => hnl (List.mem_cons_of_mem _ hm)
            by_cases hys : ys = []
            · subst hys
              have hnone : dotPlus k (acc ++ [c]) cs = none := by
                apply (dotPlus_eq_none_iff k cs (acc ++ [c])).2
                intro x' r' hx' hne hnl'
                apply hmax (c :: x') r' (by simp [hx'])
                · cases x' with
                  | nil => exact absurd rfl hne
                  | cons z zs => simp
                · simp only [List.mem_cons, not_or]
                  exact ⟨fun e => hc e.symm, hnl'⟩
              rw [hnone] at hd
              exact absurd hd (by simp)
            · have : dotPlus k (acc ++ [c]) cs = some res := by
                apply (ih (acc ++ [c])).2
                refine ⟨ys, r, caps, rest, h.2, hys, hnl2, hk, by simp [hres, h.1], ?_⟩
                intro x' r' hx' hlen hnl'
                apply hmax (c :: x') r' (by simp [hx']) (by simpa using hlen)
                simp only [List.mem_cons, not_or]
                exact ⟨fun e => hc e.symm, hnl'⟩
              rw [this] at hd
              exact (Option.some.inj hd).symm

theorem matchHere_eol (a : Bool) (s : Str) :
    matchHere [Tok.eol] a s = if s = [] then some ([], []) else none := by
  cases s <;> simp [matchHere]

theorem matchHere_lits (c : Char) (l : Str) (ts : Regexp) (a : Bool) (s : Str) :
    matchHere ((c :: l).map Tok.lit ++ ts) a s =
      if HasPrefix s (c :: l) then matchHere ts false (s.drop (l.length + 1)) else none := by
  induction l generalizing c a s with
  | nil =>
    cases s with
    | nil => simp [matchHere, HasPrefix]
    | cons x xs => by_cases h : x = c <;> simp [matchHere, HasPrefix, h]
  | cons d l ih =>
    cases s with
    | nil => simp [matchHere, HasPrefix]
    | cons x xs =>
      have h1 := ih d false xs
      simp only [List.map_cons, List.cons_append] at h1 ⊢
      have e : matchHere (Tok.lit c :: Tok.lit d :: (List.map Tok.lit l ++ ts)) a (x :: xs)
          = if x = c then matchHere (Tok.lit d :: (List.map Tok.lit l ++ ts)) false xs
            else none := rfl
      rw [e, h1]
      by_cases h : x = c
      · simp [HasPrefix, h]
      · simp [HasPrefix, h]

theorem matchHere_lits_some (c : Char) (l : Str) (ts : Regexp) (a : Bool) (s : Str)
    (r : List Str × Str) :
    matchHere ((c :: l).map Tok.lit ++ ts) a s = some r ↔
      ∃ t, s = (c :: l) ++ t ∧ matchHere ts false t = some r := by
  rw [matchHere_lits]
  by_cases h : HasPrefix s (c :: l) = true
  · obtain ⟨t, ht⟩ := (HasPrefix_iff _ _).1 h
    have hd : List.drop (l.length + 1) s = t := by
      rw [ht]
      exact List.drop_left' (by simp)
    simp only [h, if_true, hd]
    constructor
    · intro hm
      exact ⟨t, ht, hm⟩
    · rintro ⟨t', ht', hm⟩
      have : t' = t := List.append_cancel_left (ht'.symm.trans ht)
      rw [← this]
      exact hm
  · simp only [h]
    constructor
    · intro hm
      exact absurd hm (by simp)
    · rintro ⟨t, ht, _⟩
      exact absurd ((HasPrefix_iff _ _).2 ⟨t, ht⟩) h

theorem matchHere_lits_none (c : Char) (l : Str) (ts : Regexp) (a : Bool) (s : Str) :
    matchHere ((c :: l).map Tok.lit ++ ts) a s = none ↔
      ∀ t, s = (c :: l) ++ t → matchHere ts false t = none := by
  constructor
  · intro h t ht
    cases hm : matchHere ts false t with
    | none => rfl
    | some r =>
      have := (matchHere_lits_some c l ts a s r).2 ⟨t, ht, hm⟩
      rw [h] at this
      exact absurd this (by simp)
  · intro h
    cases hm : matchHere ((c :: l).map Tok.lit ++ ts) a s with
    | none => rfl
    | some r =>
      obtain ⟨t, ht, hm'⟩ := (matchHere_lits_some c l ts a s r).1 hm
      rw [h t ht] at hm'
      exact absurd hm' (by simp)

theorem findAt_bol_false (ts : Regexp) (s : Str) : findAt (Tok.bol :: ts) false s = none := by
  induction s with
  | nil => simp [findAt, matchHere]
  | cons c cs ih =>
    rw [findAt]
    simp [matchHere, ih]

theorem findAt_bol_true (ts : Regexp) (s : Str) :
    findAt (Tok.bol :: ts) true s =
      (matchHere ts true s).map (fun cr => s.take (s.length - cr.2.length) :: cr.1) := by
  cases hm : matchHere ts true s with
  | some cr =>
    cases s <;> simp [findAt, matchHere, hm]
  | none =>
    cases s with
    | nil => simp [findAt, matchHere, hm]
    | cons c cs =>
      rw [findAt]
      simp [matchHere, hm, findAt_bol_false]

theorem ManifestRequestRegexp_eq :
    ManifestRequestRegexp =
      Tok.bol :: ("/v2/wrap/".toList.map Tok.lit ++ Tok.capDotPlus ::
        ("/with/".toList.map Tok.lit ++ Tok.capDotPlus ::
          ("/manifests/".toList.map Tok.lit ++ [Tok.capDotPlus, Tok.eol]))) := rfl

theorem WrappingRegexp_eq :
    WrappingRegexp =
      Tok.bol :: ("/v2/wrap/".toList.map Tok.lit ++ Tok.capDotPlus ::
        ("/with/".toList.map Tok.lit ++ [Tok.capDotPlus, Tok.eol])) := rfl

theorem option_eq_none_of_iff {α : Type} {o : Option α} {P : α → Prop}
    (h : ∀ a, o = some a ↔ P a) : o = none ↔ ∀ a, ¬ P a := by
  cases o with
  | none =>
    simp only [true_iff]
    intro a ha
    exact absurd ((h a).2 ha) (by simp)
  | some v =>
    constructor
    · intro e
      exact absurd e (by simp)
    · intro hn
      exact absurd ((h v).1 rfl) (hn v)

theorem matchHere_cap (ts : Regexp) (a : Bool) (s : Str) :
    matchHere (Tok.capDotPlus :: ts) a s = dotPlus (matchHere ts false) [] s := rfl

/-- The end of both patterns, `(.+)$`: the group takes the whole rest. -/
theorem dotPlus_eol_some (acc s : Str) (res : List Str × Str) :
    dotPlus (matchHere [Tok.eol] false) acc s = some res ↔
      Seg s ∧ res = ([acc ++ s], []) := by
  rw [dotPlus_eq_some_iff]
  constructor
  · rintro ⟨x, r, caps, rest, hs, hx, hnl, hk, hres, _⟩
    rw [matchHere_eol] at hk
    by_cases hr : r = []
    · simp only [hr, if_true, Option.some.injEq, Prod.mk.injEq] at hk
      have hsx : s = x := by simp [hs, hr]
      subst hsx
      exact ⟨⟨hx, hnl⟩, by rw [hres, ← hk.1, ← hk.2]⟩
    · simp [hr] at hk
  · rintro ⟨⟨hx, hnl⟩, hres⟩
    refine ⟨s, [], [], [], by simp, hx, hnl, by simp [matchHere_eol], hres, ?_⟩
    intro x' r' hs hlen _
    have := congrArg List.length hs
    simp only [List.length_append] at this
    omega

theorem dotPlus_eol_none (acc s : Str) :
    dotPlus (matchHere [Tok.eol] false) acc s = none ↔ ¬ Seg s := by
  rw [option_eq_none_of_iff (dotPlus_eol_some acc s)]
  constructor
  · intro h hs
    exact h _ ⟨hs, rfl⟩
  · rintro h a ⟨hs, _⟩
    exact h hs

/-- The tail `/manifests/(.+)$` of the manifest pattern. -/
theorem matchHere_tail2_some (a : Bool) (r : Str) (res : List Str × Str) :
    matchHere ("/manifests/".toList.map Tok.lit ++ [Tok.capDotPlus, Tok.eol]) a r = some res ↔
      ∃ g, r = "/manifests/".toList ++ g ∧ Seg g ∧ res = ([g], []) := by
  have e : "/manifests/".toList = '/' :: "manifests/".toList := rfl
  rw [e, matchHere_lits_some]
  simp only [matchHere_cap, dotPlus_eol_some, List.nil_append]

theorem matchHere_tail2_none (a : Bool) (r : Str) :
    matchHere ("/manifests/".toList.map Tok.lit ++ [Tok.capDotPlus, Tok.eol]) a r = none ↔
      ∀ g, r = "/manifests/".toList ++ g → ¬ Seg g := by
  rw [option_eq_none_of_iff (matchHere_tail2_some a r)]
  constructor
  · intro h g hr hg
    exact h _ ⟨g, hr, hg, rfl⟩
  · rintro h res ⟨g, hr, hg, _⟩
    exact h g hr hg

/-- The tail `(.+)/manifests/(.+)$`: the first group is the longest one possible. -/
theorem dotPlus_tail2_some (acc s : Str) (res : List Str × Str) :
    dotPlus (matchHere ("/manifests/".toList.map Tok.lit ++ [Tok.capDotPlus, Tok.eol]) false)
        acc s = some res ↔
      ∃ t g, s = t ++ ("/manifests/".toList ++ g) ∧ Seg t ∧ Seg g ∧
        res = ([acc ++ t, g], []) ∧
        ∀ t' g', s = t' ++ ("/manifests/".toList ++ g') → t.length < t'.length →
          '\n' ∉ t' → ¬ Seg g' := by
  rw [dotPlus_eq_some_iff]
  constructor
  · rintro ⟨x, r, caps, rest, hs, hx, hnl, hk, hres, hmax⟩
    obtain ⟨g, hr, hg, hcr⟩ := (matchHere_tail2_some false r (caps, rest)).1 hk
    simp only [Prod.mk.injEq] at hcr
    refine ⟨x, g, by rw [hs, hr], ⟨hx, hnl⟩, hg, by rw [hres, hcr.1, hcr.2], ?_⟩
    intro t' g' hs' hlen hnl'
    exact (matchHere_tail2_none false _).1 (hmax t' _ hs' hlen hnl') g' rfl
  · rintro ⟨t, g, hs, ht, hg, hres, hmax⟩
    refine ⟨t, "/manifests/".toList ++ g, [g], [], hs, ht.1, ht.2,
      (matchHere_tail2_some false _ _).2 ⟨g, rfl, hg, rfl⟩, hres, ?_⟩
    intro x' r' hs' hlen hnl'
    apply (matchHere_tail2_none false r').2
    intro g' hr'
    exact hmax x' g' (by rw [hs', hr']) hlen hnl'

theorem dotPlus_tail2_none (acc s : Str) :
    dotPlus (matchHere ("/manifests/".toList.map Tok.lit ++ [Tok.capDotPlus, Tok.eol]) false)
        acc s = none ↔
      ∀ t g, s = t ++ ("/manifests/".toList ++ g) → Seg t → ¬ Seg g := by
  rw [dotPlus_eq_none_iff]
  constructor
  · intro h t g hs ht
    exact (matchHere_tail2_none false _).1 (h t _ hs ht.1 ht.2) g rfl
  · intro h x r hs hx hnl
    apply (matchHere_tail2_none false r).2
    intro g hr
    exact h x g (by rw [hs, hr]) ⟨hx, hnl⟩

theorem matchHere_tail1_some (a : Bool) (r : Str) (res : List Str × Str) :
    matchHere ("/with/".toList.map Tok.lit ++ Tok.capDotPlus ::
        ("/manifests/".toList.map Tok.lit ++ [Tok.capDotPlus, Tok.eol])) a r = some res ↔
      ∃ s2, r = "/with/".toList ++ s2 ∧
        dotPlus (matchHere ("/manifests/".toList.map Tok.lit ++ [Tok.capDotPlus, Tok.eol]) false)
          [] s2 = some res := by
  have e : "/with/".toList = '/' :: "with/".toList := rfl
  rw [e, matchHere_lits_some]
  simp only [matchHere_cap]

theorem matchHere_tail1_none (a : Bool) (r : Str) :
    matchHere ("/with/".toList.map Tok.lit ++ Tok.capDotPlus ::
        ("/manifests/".toList.map Tok.lit ++ [Tok.capDotPlus, Tok.eol])) a r = none ↔
      ∀ s2, r = "/with/".toList ++ s2 → ¬ TailShape s2 := by
  rw [option_eq_none_of_iff (matchHere_tail1_some a r)]
  constructor
  · rintro h s2 hr ⟨t, g, hs, ht, hg⟩
    cases hd : dotPlus (matchHere ("/manifests/".toList.map Tok.lit
        ++ [Tok.capDotPlus, Tok.eol]) false) [] s2 with
    | none => exact absurd hg ((dotPlus_tail2_none [] s2).1 hd t g hs ht)
    | some v => exact h v ⟨s2, hr, hd⟩
  · rintro h res ⟨s2, hr, hd⟩
    obtain ⟨t, g, hs, ht, hg, _, _⟩ := (dotPlus_tail2_some [] s2 res).1 hd
    exact h s2 hr ⟨t, g, hs, ht, hg⟩

/-- The part `(.+)/with/(.+)/manifests/(.+)$` of the manifest pattern. -/
theorem dotPlus_tail1_some (s : Str) (res : List Str × Str) :
    dotPlus (matchHere ("/with/".toList.map Tok.lit ++ Tok.capDotPlus ::
        ("/manifests/".toList.map Tok.lit ++ [Tok.capDotPlus, Tok.eol])) false) [] s = some res ↔
      ∃ u t g, GreedyManifest ("/v2/wrap/".toList ++ s) u t g ∧ res = ([u, t, g], []) := by
  rw [dotPlus_eq_some_iff]
  constructor
  · rintro ⟨x, r, caps, rest, hs, hx, hnl, hk, hres, hmax⟩
    obtain ⟨s2, hr, hd⟩ := (matchHere_tail1_some false r (caps, rest)).1 hk
    obtain ⟨t, g, hs2, ht, hg, hcr, hmaxT⟩ := (dotPlus_tail2_some [] s2 (caps, rest)).1 hd
    simp only [Prod.mk.injEq, List.nil_append] at hcr
    refine ⟨x, t, g, ⟨by rw [hs, hr, hs2], ⟨hx, hnl⟩, ht, hg, ?_, ?_⟩, ?_⟩
    · intro t' g' he
      exact hmaxT t' g' (hs2.trans he)
    · intro u' s' he hlen hnl'
      have hs' : s = u' ++ ("/with/".toList ++ s') := by rw [hs, hr, hs2, he]
      exact (matchHere_tail1_none false _).1 (hmax u' _ hs' hlen hnl') s' rfl
    · rw [hres, hcr.1, hcr.2]
      rfl
  · rintro ⟨u, t, g, ⟨hp, hu, ht, hg, hmaxT, hmaxU⟩, hres⟩
    have hs : s = u ++ ("/with/".toList ++ (t ++ ("/manifests/".toList ++ g))) :=
      List.append_cancel_left hp
    refine ⟨u, "/with/".toList ++ (t ++ ("/manifests/".toList ++ g)), [t, g], [], hs, hu.1,
      hu.2, ?_, by rw [hres]; rfl, ?_⟩
    · apply (matchHere_tail1_some false _ _).2
      refine ⟨_, rfl, (dotPlus_tail2_some [] _ _).2 ⟨t, g, rfl, ht, hg, rfl, hmaxT⟩⟩
    · intro x' r' hs' hlen hnl'
      apply (matchHere_tail1_none false r').2
      intro s2 hr'
      exact hmaxU x' s2 (by rw [← hs, hs', hr']) hlen hnl'

theorem dotPlus_tail1_none (s : Str) :
    dotPlus (matchHere ("/with/".toList.map Tok.lit ++ Tok.capDotPlus ::
        ("/manifests/".toList.map Tok.lit ++ [Tok.capDotPlus, Tok.eol])) false) [] s = none ↔
      ∀ u s2, s = u ++ ("/with/".toList ++ s2) → Seg u → ¬ TailShape s2 := by
  rw [dotPlus_eq_none_iff]
  constructor
  · intro h u s2 hs hu
    exact (matchHere_tail1_none false _).1 (h u _ hs hu.1 hu.2) s2 rfl
  · intro h x r hs hx hnl
    apply (matchHere_tail1_none false r).2
    intro s2 hr
    exact h x s2 (by rw [hs, hr]) ⟨hx, hnl⟩

/-- What `FindStringSubmatch` finds for the manifest pattern: the path and its three
greedy groups. -/
theorem findAt_manifest_some (p : Str) (m : List Str) :
    findAt ManifestRequestRegexp true p = some m ↔
      ∃ u t g, GreedyManifest p u t g ∧ m = [p, u, t, g] := by
  have e : "/v2/wrap/".toList = '/' :: "v2/wrap/".toList := rfl
  rw [ManifestRequestRegexp_eq, findAt_bol_true, Option.map_eq_some']
  constructor
  · rintro ⟨cr, hm, hcr⟩
    rw [e, matchHere_lits_some] at hm
    obtain ⟨s, hp, hm⟩ := hm
    rw [matchHere_cap] at hm
    obtain ⟨u, t, g, hG, hres⟩ := (dotPlus_tail1_some s cr).1 hm
    refine ⟨u, t, g, by rw [hp]; exact hG, ?_⟩
    rw [← hcr, hres]
    simp
  · rintro ⟨u, t, g, hG, hm⟩
    refine ⟨([u, t, g], []), ?_, by simp [hm]⟩
    rw [e, matchHere_lits_some]
    refine ⟨u ++ ("/with/".toList ++ (t ++ ("/manifests/".toList ++ g))), hG.1, ?_⟩
    rw [matchHere_cap]
    exact (dotPlus_tail1_some _ _).2 ⟨u, t, g, by rw [← hG.1]; exact hG, rfl⟩

theorem findAt_manifest_none (p : Str) :
    findAt ManifestRequestRegexp true p = none ↔ ¬ ManifestGrammar p := by
  have e : "/v2/wrap/".toList = '/' :: "v2/wrap/".toList := rfl
  rw [ManifestRequestRegexp_eq, findAt_bol_true, Option.map_eq_none', e, matchHere_lits_none]
  constructor
  · rintro h ⟨u, t, g, hp, hu, ht, hg⟩
    have := h _ hp
    rw [matchHere_cap] at this
    exact (dotPlus_tail1_none _).1 this u _ rfl hu ⟨t, g, rfl, ht, hg⟩
  · intro h s hp
    rw [matchHere_cap]
    apply (dotPlus_tail1_none s).2
    rintro u s2 hs hu ⟨t, g, hs2, ht, hg⟩
    exact h ⟨u, t, g, by rw [hp, hs, hs2]; rfl, hu, ht, hg⟩

/-! ## Occurrences of a separator -/

theorem occurrences_cons_ge (sub : Str) (c : Char) (cs : Str) :
    occurrences sub cs ≤ occurrences sub (c :: cs) := by
  simp [occurrences]

theorem occurrences_pos (sub a b s : Str) (h : s = a ++ (sub ++ b)) :
    1 ≤ occurrences sub s := by
  induction a generalizing s with
  | nil =>
    cases s with
    | nil =>
      have h1 : HasPrefix [] sub = true := (HasPrefix_iff _ _).2 ⟨b, by simpa using h⟩
      simp [occurrences, h1]
    | cons c cs =>
      have h1 : HasPrefix (c :: cs) sub = true := (HasPrefix_iff _ _).2 ⟨b, by simpa using h⟩
      simp [occurrences, h1]
  | cons x xs ih =>
    subst h
    exact le_trans (ih _ rfl) (occurrences_cons_ge sub x _)

/-- Two occurrences at different positions count twice. -/
theorem occurrences_two (sub a b a' b' s : Str) (h : s = a ++ (sub ++ b))
    (h' : s = a' ++ (sub ++ b')) (hlt : a.length < a'.length) :
    2 ≤ occurrences sub s := by
  induction a generalizing s a' with
  | nil =>
    cases a' with
    | nil => simp at hlt
    | cons y ys =>
      subst h'
      have h1 : HasPrefix (y :: (ys ++ (sub ++ b'))) sub = true :=
        (HasPrefix_iff _ _).2 ⟨b, by simpa using h⟩
      have h2 := occurrences_pos sub ys b' _ rfl
      have e : occurrences sub (y :: ys ++ (sub ++ b'))
          = (if HasPrefix (y :: (ys ++ (sub ++ b'))) sub = true then 1 else 0)
            + occurrences sub (ys ++ (sub ++ b')) := rfl
      rw [e, if_pos h1]
      omega
  | cons x xs ih =>
    cases a' with
    | nil => simp at hlt
    | cons y ys =>
      subst h
      simp only [List.cons_append, List.cons.injEq] at h'
      have := ih ys _ rfl h'.2 (by simpa using hlt)
      exact le_trans this (occurrences_cons_ge sub x _)

theorem FindStringSubmatch_of_greedy (p u t g : Str) (h : GreedyManifest p u t g) :
    FindStringSubmatch ManifestRequestRegexp p = [p, u, t, g] := by
  unfold FindStringSubmatch
  rw [(findAt_manifest_some p [p, u, t, g]).2 ⟨u, t, g, h, rfl⟩]
  rfl

theorem ParseImageRef_of_greedy (p u t g : Str) (h : GreedyManifest p u t g) :
    ParseImageRef p =
      if '/' ∉ u then Except.error "invalid upstream image format"
      else if '/' ∉ t then Except.error "invalid target image format"
      else Except.ok
        { Path := "/wrap/".toList ++ u ++ "/with/".toList ++ t
          UpstreamImage := imageSlashTagToImage u
          TargetImage := imageSlashTagToImage t } := by
  have hs : "/".toList = ['/'] := rfl
  unfold ParseImageRef
  rw [FindStringSubmatch_of_greedy p u t g h, hs]
  by_cases h1 : '/' ∈ u
  · by_cases h2 : '/' ∈ t
    · have c1 := (Contains_singleton u '/').2 h1
      have c2 := (Contains_singleton t '/').2 h2
      simp [h1, h2, c1, c2]
    · have c1 := (Contains_singleton u '/').2 h1
      have c2 : Contains t ['/'] = false := by
        simpa using (not_congr (Contains_singleton t '/')).2 h2
      simp [h1, h2, c1, c2]
  · have c1 : Contains u ['/'] = false := by
      simpa using (not_congr (Contains_singleton u '/')).2 h1
    simp [h1, c1]

theorem ParseImageRef_of_not_grammar (p : Str) (h : ¬ ManifestGrammar p) :
    ParseImageRef p = Except.error
      "invalid path, expected /wrap/\x7bupstream-image\x7d/with/\x7btarget-image\x7d" := by
  unfold ParseImageRef FindStringSubmatch
  rw [(findAt_manifest_none p).2 h]
  rfl

/-- A path of the grammar is matched, with some greedy groups. -/
theorem exists_greedy_of_grammar (p : Str) (h : ManifestGrammar p) :
    ∃ u t g, GreedyManifest p u t g := by
  cases hf : findAt ManifestRequestRegexp true p with
  | none => exact absurd h ((findAt_manifest_none p).1 hf)
  | some m =>
    obtain ⟨u, t, g, hG, _⟩ := (findAt_manifest_some p m).1 hf
    exact ⟨u, t, g, hG⟩

theorem MatchString_manifest_iff (p : Str) :
    MatchString ManifestRequestRegexp p = true ↔ ManifestGrammar p := by
  unfold MatchString
  constructor
  · intro h
    by_contra hn
    rw [(findAt_manifest_none p).2 hn] at h
    exact absurd h (by simp)
  · intro h
    obtain ⟨u, t, g, hG⟩ := exists_greedy_of_grammar p h
    rw [(findAt_manifest_some p [p, u, t, g]).2 ⟨u, t, g, hG, rfl⟩]
    rfl

theorem manifestPath_eq (u t g : Str) :
    manifestPath u t g =
      "/v2/wrap/".toList ++ (u ++ ("/with/".toList ++ (t ++ ("/manifests/".toList ++ g)))) := by
  simp [manifestPath, List.append_assoc]

/-- Unique separators make the given segments the greedy groups. -/
theorem greedy_of_unique (u t g : Str) (hu : Seg u) (ht : Seg t) (hg : Seg g)
    (hw : occurrences "/with/".toList (manifestPath u t g) = 1)
    (hm : occurrences "/manifests/".toList (manifestPath u t g) = 1) :
    GreedyManifest (manifestPath u t g) u t g := by
  refine ⟨manifestPath_eq u t g, hu, ht, hg, ?_, ?_⟩
  · intro t' g' he hlen _ _
    have h2 := occurrences_two "/manifests/".toList
      ("/v2/wrap/".toList ++ (u ++ ("/with/".toList ++ t))) g
      ("/v2/wrap/".toList ++ (u ++ ("/with/".toList ++ t'))) g' (manifestPath u t g)
      (by rw [manifestPath_eq]; simp only [List.append_assoc])
      (by rw [manifestPath_eq]; simp only [List.append_assoc]; rw [he])
      (by simp only [List.length_append]; omega)
    omega
  · intro u' s' he hlen _ _
    have h2 := occurrences_two "/with/".toList
      ("/v2/wrap/".toList ++ u) (t ++ ("/manifests/".toList ++ g))
      ("/v2/wrap/".toList ++ u') s' (manifestPath u t g)
      (by rw [manifestPath_eq]; simp only [List.append_assoc])
      (by rw [manifestPath_eq]; simp only [List.append_assoc]; rw [he])
      (by simp only [List.length_append]; omega)
    omega

/-- C1: for non-empty newline-free `u`, `t`, `g` with a `/` in `u` and in `t`, such that
the path `p = "/v2/wrap/" ++ u ++ "/with/" ++ t ++ "/manifests/" ++ g` has exactly one
occurrence of "/with/" and exactly one of "/manifests/", `ParseImageRef p` succeeds
with `Path = "/wrap/" ++ u ++ "/with/" ++ t`, so that
`p = "/v2" ++ Path ++ "/manifests/" ++ g`, with `UpstreamImage` equal to `u` with its
last `/` replaced by `:` and `TargetImage` equal to `t` with its last `/` replaced by
`:` (an occurrence is a position at which the separator starts). -/
theorem C1_ParseImageRef_well_formed (u t g : Str)
    (hu : u ≠ []) (ht : t ≠ []) (hg : g ≠ [])
    (hun : '\n' ∉ u) (htn : '\n' ∉ t) (hgn : '\n' ∉ g)
    (hus : '/' ∈ u) (hts : '/' ∈ t)
    (hw : occurrences "/with/".toList (manifestPath u t g) = 1)
    (hm : occurrences "/manifests/".toList (manifestPath u t g) = 1) :
    ∃ ua ub ta tb,
      u = ua ++ "/".toList ++ ub ∧ '/' ∉ ub ∧ t = ta ++ "/".toList ++ tb ∧ '/' ∉ tb ∧
      ParseImageRef (manifestPath u t g) =
        Except.ok
          { Path := "/wrap/".toList ++ u ++ "/with/".toList ++ t
            UpstreamImage := ua ++ ":".toList ++ ub
            TargetImage := ta ++ ":".toList ++ tb } ∧
      manifestPath u t g =
        "/v2".toList ++ ("/wrap/".toList ++ u ++ "/with/".toList ++ t)
          ++ "/manifests/".toList ++ g := by
  obtain ⟨ua, ub, hua, hub⟩ := exists_last_split u '/' hus
  obtain ⟨ta, tb, hta, htb⟩ := exists_last_split t '/' hts
  have hG := greedy_of_unique u t g ⟨hu, hun⟩ ⟨ht, htn⟩ ⟨hg, hgn⟩ hw hm
  refine ⟨ua, ub, ta, tb, by simpa using hua, hub, by simpa using hta, htb, ?_, ?_⟩
  · rw [ParseImageRef_of_greedy _ u t g hG]
    simp only [hus, hts, not_true_eq_false, if_false]
    have e1 : imageSlashTagToImage u = ua ++ ":".toList ++ ub := by
      rw [hua, imageSlashTagToImage_append ua ub hub]
      simp
    have e2 : imageSlashTagToImage t = ta ++ ":".toList ++ tb := by
      rw [hta, imageSlashTagToImage_append ta tb htb]
      simp
    rw [e1, e2]
  · have e : "/v2/wrap/".toList = "/v2".toList ++ "/wrap/".toList := rfl
    unfold manifestPath
    rw [e]
    simp only [List.append_assoc]

/-- Witness of C1: the path
"/v2/wrap/reg.example/ns/app/1.0/with/reg.example/ns/wrapper/latest/manifests/latest"
satisfies the hypotheses, and parses to upstream "reg.example/ns/app:1.0", target
"reg.example/ns/wrapper:latest" and path
"/wrap/reg.example/ns/app/1.0/with/reg.example/ns/wrapper/latest". -/
theorem C1_ParseImageRef_well_formed_witness :
    (∃ ua ub ta tb,
      "reg.example/ns/app/1.0".toList = ua ++ "/".toList ++ ub ∧ '/' ∉ ub ∧
      "reg.example/ns/wrapper/latest".toList = ta ++ "/".toList ++ tb ∧ '/' ∉ tb ∧
      ParseImageRef (manifestPath "reg.example/ns/app/1.0".toList
          "reg.example/ns/wrapper/latest".toList "latest".toList) =
        Except.ok
          { Path := "/wrap/".toList ++ "reg.example/ns/app/1.0".toList ++ "/with/".toList
              ++ "reg.example/ns/wrapper/latest".toList
            UpstreamImage := ua ++ ":".toList ++ ub
            TargetImage := ta ++ ":".toList ++ tb } ∧
      manifestPath "reg.example/ns/app/1.0".toList
          "reg.example/ns/wrapper/latest".toList "latest".toList =
        "/v2".toList ++ ("/wrap/".toList ++ "reg.example/ns/app/1.0".toList ++ "/with/".toList
          ++ "reg.example/ns/wrapper/latest".toList) ++ "/manifests/".toList
          ++ "latest".toList) ∧
    ParseImageRef
        "/v2/wrap/reg.example/ns/app/1.0/with/reg.example/ns/wrapper/latest/manifests/latest".toList
      = Except.ok
          { Path := "/wrap/reg.example/ns/app/1.0/with/reg.example/ns/wrapper/latest".toList
            UpstreamImage := "reg.example/ns/app:1.0".toList
            TargetImage := "reg.example/ns/wrapper:latest".toList } :=
  ⟨C1_ParseImageRef_well_formed "reg.example/ns/app/1.0".toList
      "reg.example/ns/wrapper/latest".toList "latest".toList
      (by decide) (by decide) (by decide) (by decide) (by decide) (by decide)
      (by decide) (by decide) (by decide) (by decide),
    by rfl⟩

/-- C5: `ParseImageRef` returns an error exactly when the path does not match the
manifest grammar `^/v2/wrap/(.+)/with/(.+)/manifests/(.+)$` (the pattern matches exactly
the paths `/v2/wrap/u/with/t/manifests/g` with non-empty newline-free `u`, `t`, `g`), or
the captured upstream segment has no `/`, or the captured target segment has no `/`.
The upstream segment is checked first: on a matching path a slash-less upstream gives
"invalid upstream image format", otherwise a slash-less target gives "invalid target
image format".  The path "/v2/wrap/app/with/reg.example/ns/wrapper/latest/manifests/latest"
is rejected as invalid upstream image format. -/
theorem C5_ParseImageRef_rejects_malformed :
    (∀ p : Str, MatchString ManifestRequestRegexp p = true ↔ ManifestGrammar p) ∧
    (∀ p : Str, (∃ e, ParseImageRef p = Except.error e) ↔
      (MatchString ManifestRequestRegexp p = false ∨
        '/' ∉ (FindStringSubmatch ManifestRequestRegexp p).getD 1 [] ∨
        '/' ∉ (FindStringSubmatch ManifestRequestRegexp p).getD 2 [])) ∧
    (∀ p : Str, MatchString ManifestRequestRegexp p = true →
      '/' ∉ (FindStringSubmatch ManifestRequestRegexp p).getD 1 [] →
      ParseImageRef p = Except.error "invalid upstream image format") ∧
    (∀ p : Str, MatchString ManifestRequestRegexp p = true →
      '/' ∈ (FindStringSubmatch ManifestRequestRegexp p).getD 1 [] →
      '/' ∉ (FindStringSubmatch ManifestRequestRegexp p).getD 2 [] →
      ParseImageRef p = Except.error "invalid target image format") ∧
    ParseImageRef "/v2/wrap/app/with/reg.example/ns/wrapper/latest/manifests/latest".toList
      = Except.error "invalid upstream image format" := by
  refine ⟨MatchString_manifest_iff, ?_, ?_, ?_, by rfl⟩
  · intro p
    by_cases hm : ManifestGrammar p
    · obtain ⟨u, t, g, hG⟩ := exists_greedy_of_grammar p hm
      have h1 := (MatchString_manifest_iff p).2 hm
      rw [ParseImageRef_of_greedy p u t g hG, FindStringSubmatch_of_greedy p u t g hG, h1]
      by_cases hu : '/' ∈ u
      · by_cases ht : '/' ∈ t
        · simp [hu, ht]
        · simp [hu, ht]
      · simp [hu]
    · have h1 : MatchString ManifestRequestRegexp p = false := by
        simpa using (not_congr (MatchString_manifest_iff p)).2 hm
      rw [ParseImageRef_of_not_grammar p hm, h1]
      simp
  · intro p hp hu
    obtain ⟨u, t, g, hG⟩ := exists_greedy_of_grammar p ((MatchString_manifest_iff p).1 hp)
    rw [FindStringSubmatch_of_greedy p u t g hG] at hu
    rw [ParseImageRef_of_greedy p u t g hG]
    have hu' : '/' ∉ u := by simpa using hu
    simp [hu']
  · intro p hp hu ht
    obtain ⟨u, t, g, hG⟩ := exists_greedy_of_grammar p ((MatchString_manifest_iff p).1 hp)
    rw [FindStringSubmatch_of_greedy p u t g hG] at hu ht
    rw [ParseImageRef_of_greedy p u t g hG]
    have hu' : '/' ∈ u := by simpa using hu
    have ht' : '/' ∉ t := by simpa using ht
    simp [hu', ht']

/-- Witness of C5: on "/v2/wrap/reg/app/1/with/wrapper/manifests/latest" the pattern
matches, the upstream segment has a `/`, the target segment "wrapper" has none, and
the path is rejected as invalid target image format. -/
theorem C5_ParseImageRef_rejects_malformed_witness :
    ParseImageRef "/v2/wrap/reg/app/1/with/wrapper/manifests/latest".toList
      = Except.error "invalid target image format" :=
  C5_ParseImageRef_rejects_malformed.2.2.2.1
    "/v2/wrap/reg/app/1/with/wrapper/manifests/latest".toList
    (by decide) (by decide) (by decide)

/-- C8, as stated, fails: the pattern matches
"/v2/wrap/a/with/b/with/c/manifests/d/manifests/g", the captured upstream segment is
"a/with/b", which contains "/with/", and the captured target segment is
"c/manifests/d", which contains "/manifests/"; on
"/v2/wrap/a/manifests/b/with/c/manifests/g" the captured upstream segment
"a/manifests/b" contains "/manifests/". -/
theorem C8_separators_in_captures_counterexample :
    FindStringSubmatch ManifestRequestRegexp
        "/v2/wrap/a/with/b/with/c/manifests/d/manifests/g".toList
      = ["/v2/wrap/a/with/b/with/c/manifests/d/manifests/g".toList, "a/with/b".toList,
          "c/manifests/d".toList, "g".toList] ∧
    Contains "a/with/b".toList "/with/".toList = true ∧
    Contains "c/manifests/d".toList "/manifests/".toList = true ∧
    FindStringSubmatch ManifestRequestRegexp "/v2/wrap/a/manifests/b/with/c/manifests/g".toList
      = ["/v2/wrap/a/manifests/b/with/c/manifests/g".toList, "a/manifests/b".toList,
          "c".toList, "g".toList] ∧
    Contains "a/manifests/b".toList "/manifests/".toList = true := by
  decide

theorem not_mem_newline_with : '\n' ∉ "/with/".toList := by decide

theorem not_mem_newline_manifests : '\n' ∉ "/manifests/".toList := by decide

/-- C8, amended: for every path `p` that `ManifestRequestRegexp` matches, the captured
segments `u`, `t`, `g` are non-empty and newline-free and
`p = "/v2/wrap/" ++ u ++ "/with/" ++ t ++ "/manifests/" ++ g`, so the tokens "/with/" and
"/manifests/" delimit the captures; the groups being greedy, the captured target
segment contains no "/with/" followed by a further character, and the captured tag
contains no "/manifests/" followed by a further character. -/
theorem C8_separators_anchor_greedy_captures (p : Str)
    (h : MatchString ManifestRequestRegexp p = true) :
    ∃ u t g, FindStringSubmatch ManifestRequestRegexp p = [p, u, t, g] ∧
      p = manifestPath u t g ∧ Seg u ∧ Seg t ∧ Seg g ∧
      (∀ c, Contains t ("/with/".toList ++ [c]) = false) ∧
      (∀ c, Contains g ("/manifests/".toList ++ [c]) = false) := by
  obtain ⟨u, t, g, hG⟩ := exists_greedy_of_grammar p ((MatchString_manifest_iff p).1 h)
  obtain ⟨hp, hu, ht, hg, hmaxT, hmaxU⟩ := hG
  refine ⟨u, t, g, FindStringSubmatch_of_greedy p u t g ⟨hp, hu, ht, hg, hmaxT, hmaxU⟩,
    by rw [manifestPath_eq]; exact hp, hu, ht, hg, ?_, ?_⟩
  · intro c
    by_contra hc
    have hc' : Contains t ("/with/".toList ++ [c]) = true := by simpa using hc
    obtain ⟨a, b, hab⟩ := (Contains_iff _ _).1 hc'
    have hnt : '\n' ∉ a ++ ("/with/".toList ++ [c]) ++ b := hab ▸ ht.2
    simp only [List.mem_append, not_or] at hnt
    have hna : '\n' ∉ a := hnt.1.1
    have hnc : '\n' ∉ [c] := hnt.1.2.2
    have hnb : '\n' ∉ b := hnt.2
    apply hmaxU (u ++ ("/with/".toList ++ a)) (([c] ++ b) ++ ("/manifests/".toList ++ g))
    · rw [hab]
      simp only [List.append_assoc]
    · have : 0 < "/with/".toList.length := by decide
      simp only [List.length_append]
      omega
    · simp only [List.mem_append, not_or]
      exact ⟨hu.2, not_mem_newline_with, hna⟩
    · refine ⟨[c] ++ b, g, rfl, ⟨by simp, ?_⟩, hg⟩
      simp only [List.mem_append, not_or]
      exact ⟨hnc, hnb⟩
  · intro c
    by_contra hc
    have hc' : Contains g ("/manifests/".toList ++ [c]) = true := by simpa using hc
    obtain ⟨a, b, hab⟩ := (Contains_iff _ _).1 hc'
    have hng : '\n' ∉ a ++ ("/manifests/".toList ++ [c]) ++ b := hab ▸ hg.2
    simp only [List.mem_append, not_or] at hng
    have hna : '\n' ∉ a := hng.1.1
    have hnc : '\n' ∉ [c] := hng.1.2.2
    have hnb : '\n' ∉ b := hng.2
    apply hmaxT (t ++ ("/manifests/".toList ++ a)) ([c] ++ b)
    · rw [hab]
      simp only [List.append_assoc]
    · have : 0 < "/manifests/".toList.length := by decide
      simp only [List.length_append]
      omega
    · simp only [List.mem_append, not_or]
      exact ⟨ht.2, not_mem_newline_manifests, hna⟩
    · refine ⟨by simp, ?_⟩
      simp only [List.mem_append, not_or]
      exact ⟨hnc, hnb⟩

/-- Witness of the amended C8 at "/v2/wrap/a/with/b/with/c/manifests/d/manifests/g". -/
theorem C8_separators_anchor_greedy_captures_witness :
    ∃ u t g, FindStringSubmatch ManifestRequestRegexp
        "/v2/wrap/a/with/b/with/c/manifests/d/manifests/g".toList
        = ["/v2/wrap/a/with/b/with/c/manifests/d/manifests/g".toList, u, t, g] ∧
      "/v2/wrap/a/with/b/with/c/manifests/d/manifests/g".toList = manifestPath u t g ∧
      Seg u ∧ Seg t ∧ Seg g ∧
      (∀ c, Contains t ("/with/".toList ++ [c]) = false) ∧
      (∀ c, Contains g ("/manifests/".toList ++ [c]) = false) :=
  C8_separators_anchor_greedy_captures
    "/v2/wrap/a/with/b/with/c/manifests/d/manifests/g".toList (by decide)

/-! ## Claims: image composer -/

/-- The image `WrapImage` builds from the upstream image with layers `Ls` and config
`cu`, the layer `L` and the script path `s`. -/
theorem WrapImage_ok (W : World) (up tg : Str) (U Wr : Image) (Ls Lw : List Layer)
    (L : Layer) (cu cw : ConfigFile) (s : Str)
    (hU : (pullImage W up).1 = Except.ok U) (hW : (pullImage W tg).1 = Except.ok Wr)
    (hLs : U.Layers = Except.ok Ls) (hcu : U.ConfigFile = Except.ok cu)
    (hcw : Wr.ConfigFile = Except.ok cw)
    (hlab : cw.Config.Labels WrapperLabelKey = some s)
    (hLw : Wr.Layers = Except.ok (Lw ++ [L]))
    (happ : W.appendLayersErr U L = none)
    (hset : W.configFileErr
        { Layers := Except.ok (Ls ++ [L]), ConfigFile := Except.ok cu }
        { Config := { cu.Config with
            Cmd := cu.Config.Entrypoint ++ cu.Config.Cmd, Entrypoint := [s] } } = none) :
    (WrapImage W up tg).1 =
      Except.ok
        { Layers := Except.ok (Ls ++ [L])
          ConfigFile := Except.ok
            { Config := { cu.Config with
                Cmd := cu.Config.Entrypoint ++ cu.Config.Cmd, Entrypoint := [s] } } } := by
  cases hpu : pullImage W up with
  | mk ru eu =>
    cases hpw : pullImage W tg with
    | mk rw ew =>
      rw [hpu] at hU
      rw [hpw] at hW
      simp only at hU hW
      subst hU
      subst hW
      have hA : mutate.AppendLayers W U L =
          Except.ok { Layers := Except.ok (Ls ++ [L]), ConfigFile := Except.ok cu } := by
        simp [mutate.AppendLayers, happ, hLs, hcu, Except.map]
      simp [WrapImage, hpu, hpw, hcw, hlab, hLw, hA, mutate.ConfigFile, hset]

/-- C2: for every upstream image with layers `Ls`, entrypoint `E` and cmd `C` (config
`cu`), and every wrapper image carrying the label "org.goci.wrapper" with value `s`
whose layer sequence is non-empty with last layer `L`, when both pulls, the
append-layer step and the set-config step succeed, `WrapImage` returns an image whose
layer sequence is `Ls ++ [L]`, whose entrypoint is exactly `[s]` and whose cmd is
exactly `E ++ C`; env and labels are those of the upstream image. -/
theorem C2_WrapImage_splices (W : World) (up tg : Str) (U Wr : Image) (Ls Lw : List Layer)
    (L : Layer) (cu cw : ConfigFile) (s : Str)
    (hU : (pullImage W up).1 = Except.ok U) (hW : (pullImage W tg).1 = Except.ok Wr)
    (hLs : U.Layers = Except.ok Ls) (hcu : U.ConfigFile = Except.ok cu)
    (hcw : Wr.ConfigFile = Except.ok cw)
    (hlab : cw.Config.Labels WrapperLabelKey = some s)
    (hLw : Wr.Layers = Except.ok (Lw ++ [L]))
    (happ : W.appendLayersErr U L = none)
    (hset : W.configFileErr
        { Layers := Except.ok (Ls ++ [L]), ConfigFile := Except.ok cu }
        { Config := { cu.Config with
            Cmd := cu.Config.Entrypoint ++ cu.Config.Cmd, Entrypoint := [s] } } = none) :
    ∃ img cf, (WrapImage W up tg).1 = Except.ok img ∧
      img.Layers = Except.ok (Ls ++ [L]) ∧
      img.ConfigFile = Except.ok cf ∧
      cf.Config.Entrypoint = [s] ∧
      cf.Config.Cmd = cu.Config.Entrypoint ++ cu.Config.Cmd ∧
      cf.Config.Env = cu.Config.Env ∧
      cf.Config.Labels = cu.Config.Labels :=
  ⟨_, _, WrapImage_ok W up tg U Wr Ls Lw L cu cw s hU hW hLs hcu hcw hlab hLw happ hset,
    rfl, rfl, rfl, rfl, rfl, rfl⟩

/-- Witness of C2: upstream entrypoint `["/bin/app"]`, cmd `["--flag"]`, script path
"/wrap/run.sh": the composed image has entrypoint `["/wrap/run.sh"]`, cmd
`["/bin/app", "--flag"]` and the upstream layers followed by the last wrapper layer. -/
theorem C2_WrapImage_splices_witness :
    ∃ img cf, (WrapImage exampleWorld "reg.example/ns/app:1.0".toList
        "reg.example/ns/wrapper:latest".toList).1 = Except.ok img ∧
      img.Layers = Except.ok
        ([{ digest := "sha256:u1".toList }, { digest := "sha256:u2".toList }]
          ++ [{ digest := "sha256:w2".toList }]) ∧
      img.ConfigFile = Except.ok cf ∧
      cf.Config.Entrypoint = ["/wrap/run.sh".toList] ∧
      cf.Config.Cmd = ["/bin/app".toList] ++ ["--flag".toList] ∧
      cf.Config.Env = ["PATH=/bin".toList] ∧
      cf.Config.Labels = fun _ => none :=
  C2_WrapImage_splices exampleWorld "reg.example/ns/app:1.0".toList
    "reg.example/ns/wrapper:latest".toList exampleUpstream exampleWrapper
    [{ digest := "sha256:u1".toList }, { digest := "sha256:u2".toList }]
    [{ digest := "sha256:w1".toList }] { digest := "sha256:w2".toList }
    { Config :=
        { Entrypoint := ["/bin/app".toList]
          Cmd := ["--flag".toList]
          Env := ["PATH=/bin".toList]
          Labels := fun _ => none } }
    { Config :=
        { Entrypoint := []
          Cmd := []
          Env := []
          Labels := fun k => if k = WrapperLabelKey then some "/wrap/run.sh".toList else none } }
    "/wrap/run.sh".toList rfl rfl rfl rfl rfl rfl rfl rfl rfl

/-! ## Lemmas on the dispatcher -/

theorem grammar_of_ParseImageRef_ok (p : Str) (ref : ImageRef)
    (h : ParseImageRef p = Except.ok ref) : ManifestGrammar p := by
  by_contra hn
  rw [ParseImageRef_of_not_grammar p hn] at h
  exact absurd h (by simp)

theorem Seg_append (x y : Str) (hx : Seg x) (hy : '\n' ∉ y) : Seg (x ++ y) := by
  refine ⟨by simp [hx.1], ?_⟩
  simp only [List.mem_append, not_or]
  exact ⟨hx.2, hy⟩

/-- A path of the manifest grammar is a wrap-family path. -/
theorem MatchString_wrapping_of_grammar (p : Str) (h : ManifestGrammar p) :
    MatchString WrappingRegexp p = true := by
  obtain ⟨u, t, g, hp, hu, ht, hg⟩ := h
  have e : "/v2/wrap/".toList = '/' :: "v2/wrap/".toList := rfl
  have e2 : "/with/".toList = '/' :: "with/".toList := rfl
  unfold MatchString
  rw [WrappingRegexp_eq, findAt_bol_true, Option.isSome_map']
  cases hm : matchHere ("/v2/wrap/".toList.map Tok.lit ++ Tok.capDotPlus ::
      ("/with/".toList.map Tok.lit ++ [Tok.capDotPlus, Tok.eol])) true p with
  | some v => rfl
  | none =>
    exfalso
    rw [e, matchHere_lits_none] at hm
    have h1 := hm _ hp
    rw [matchHere_cap, dotPlus_eq_none_iff] at h1
    have h2 := h1 u _ rfl hu.1 hu.2
    rw [e2, matchHere_lits_none] at h2
    have h3 := h2 _ rfl
    rw [matchHere_cap, dotPlus_eol_none] at h3
    apply h3
    apply Seg_append _ _ ht
    simp only [List.mem_append, not_or]
    exact ⟨not_mem_newline_manifests, hg.2⟩

/-- The run of the handler on a path that parses: the two pattern tests pass, and the
handler goes on with the cache check. -/
theorem HandleWrapRequest_parsed (W : World) (c : Cache) (p : Str) (ref : ImageRef)
    (hp : ParseImageRef p = Except.ok ref) :
    HandleWrapRequest W c p =
      if c.Has (Cache.Key ref.UpstreamImage ref.TargetImage) then
        { cache := c, response := Response.forwarded, events := [] }
      else
        match WrapImage W ref.UpstreamImage ref.TargetImage with
        | (Except.error err, ev) =>
          { cache := c, response := Response.error err 500, events := ev }
        | (Except.ok finalImage, ev) =>
          match W.ParseReference ("localhost:5000".toList ++ ref.Path) with
          | Except.error err =>
            { cache := c
              response := Response.error ("failed to parse target reference: " ++ err) 500
              events := ev }
          | Except.ok targetRef =>
            match W.Write targetRef finalImage with
            | some err =>
              { cache := c
                response := Response.error ("failed to push wrapped image: " ++ err) 500
                events := ev ++ [Event.push targetRef finalImage] }
            | none =>
              { cache := c.Set (Cache.Key ref.UpstreamImage ref.TargetImage)
                response := Response.forwarded
                events := ev ++ [Event.push targetRef finalImage] } := by
  have hg := grammar_of_ParseImageRef_ok p ref hp
  have h1 := MatchString_wrapping_of_grammar p hg
  have h2 := (MatchString_manifest_iff p).2 hg
  unfold HandleWrapRequest
  simp only [h1, h2, hp, Bool.not_true, Bool.false_eq_true, if_false]

theorem HandleWrapRequest_not_manifest (W : World) (c : Cache) (p : Str)
    (h : MatchString ManifestRequestRegexp p = false) :
    HandleWrapRequest W c p = { cache := c, response := Response.forwarded, events := [] } := by
  unfold HandleWrapRequest
  by_cases h1 : MatchString WrappingRegexp p = true
  · simp [h1, h]
  · simp [h1]

theorem HandleWrapRequest_parse_error (W : World) (c : Cache) (p : Str) (e : String)
    (hm : MatchString ManifestRequestRegexp p = true)
    (hp : ParseImageRef p = Except.error e) :
    HandleWrapRequest W c p = { cache := c, response := Response.error e 400, events := [] } := by
  have h1 := MatchString_wrapping_of_grammar p ((MatchString_manifest_iff p).1 hm)
  unfold HandleWrapRequest
  simp only [h1, hm, hp, Bool.not_true, Bool.false_eq_true, if_false]

/-- The pulls are the only events of `WrapImage`. -/
theorem pullImage_events (W : World) (r : Str) (ref : Str) (img : Image) :
    Event.push ref img ∉ (pullImage W r).2 := by
  unfold pullImage
  cases h1 : W.ParseReference r with
  | error err => simp
  | ok rf =>
    cases h2 : W.remoteImage rf with
    | error err => simp [h2]
    | ok im => simp [h2]

theorem WrapImage_events (W : World) (up tg : Str) :
    (WrapImage W up tg).2 = (pullImage W up).2 ∨
      (WrapImage W up tg).2 = (pullImage W up).2 ++ (pullImage W tg).2 := by
  unfold WrapImage
  cases hpu : pullImage W up with
  | mk ru eu =>
    cases ru with
    | error err => simp
    | ok U =>
      cases hpw : pullImage W tg with
      | mk rw ew =>
        cases rw with
        | error err => simp
        | ok Wr =>
          right
          simp only
          repeat' split
          all_goals rfl

theorem WrapImage_no_push (W : World) (up tg : Str) (ref : Str) (img : Image) :
    Event.push ref img ∉ (WrapImage W up tg).2 := by
  rcases WrapImage_events W up tg with h | h
  · rw [h]
    exact pullImage_events W up ref img
  · rw [h]
    simp only [List.mem_append, not_or]
    exact ⟨pullImage_events W up ref img, pullImage_events W tg ref img⟩

theorem WrapImage_pull_error (W : World) (up tg : Str) (e : String)
    (h : (pullImage W up).1 = Except.error e ∨
      ∃ U, (pullImage W up).1 = Except.ok U ∧ (pullImage W tg).1 = Except.error e) :
    (WrapImage W up tg).1 = Except.error e := by
  unfold WrapImage
  cases hpu : pullImage W up with
  | mk ru eu =>
    rw [hpu] at h
    rcases h with h | ⟨U, hU, hW⟩
    · simp only at h
      subst h
      rfl
    · simp only at hU
      subst hU
      cases hpw : pullImage W tg with
      | mk rw ew =>
        rw [hpw] at hW
        simp only at hW
        subst hW
        rfl

theorem WrapImage_misbuilt (W : World) (up tg : Str) (U Wr : Image)
    (hU : (pullImage W up).1 = Except.ok U) (hW : (pullImage W tg).1 = Except.ok Wr)
    (hbad : (∃ cw, Wr.ConfigFile = Except.ok cw ∧ cw.Config.Labels WrapperLabelKey = none) ∨
      Wr.Layers = Except.ok []) :
    ∃ e, (WrapImage W up tg).1 = Except.error e := by
  cases hpu : pullImage W up with
  | mk ru eu =>
    cases hpw : pullImage W tg with
    | mk rw ew =>
      rw [hpu] at hU
      rw [hpw] at hW
      simp only at hU hW
      subst hU
      subst hW
      unfold WrapImage
      simp only [hpu, hpw]
      cases hc : Wr.ConfigFile with
      | error err => exact ⟨_, rfl⟩
      | ok cw =>
        dsimp only
        cases hl : cw.Config.Labels WrapperLabelKey with
        | none => exact ⟨_, rfl⟩
        | some sp =>
          dsimp only
          rcases hbad with ⟨cw', hcw', hl'⟩ | hz
          · rw [hc] at hcw'
            have : cw = cw' := by simpa using hcw'
            subst this
            rw [hl] at hl'
            exact absurd hl' (by simp)
          · simp only [hz, List.getLast?_nil]
            exact ⟨_, rfl⟩

theorem HandleWrapRequest_wrap_error (W : World) (c : Cache) (p : Str) (ref : ImageRef)
    (e : String) (hp : ParseImageRef p = Except.ok ref)
    (hmiss : c.Has (Cache.Key ref.UpstreamImage ref.TargetImage) = false)
    (hw : (WrapImage W ref.UpstreamImage ref.TargetImage).1 = Except.error e) :
    (HandleWrapRequest W c p).response = Response.error e 500 ∧
      (HandleWrapRequest W c p).cache = c ∧
      ∀ r i, Event.push r i ∉ (HandleWrapRequest W c p).events := by
  rw [HandleWrapRequest_parsed W c p ref hp]
  have hnp := WrapImage_no_push W ref.UpstreamImage ref.TargetImage
  cases hwi : WrapImage W ref.UpstreamImage ref.TargetImage with
  | mk r ev =>
    rw [hwi] at hw hnp
    simp only at hw hnp
    subst hw
    simp only [hmiss, Bool.false_eq_true, if_false]
    exact ⟨trivial, trivial, hnp⟩

/-! ## Claims: image composer failures and request dispatcher -/

/-- C6: for every upstream image and wrapper image that both pull successfully, if the
wrapper image's config has no "org.goci.wrapper" label, or the wrapper image has zero
layers, `WrapImage` returns an error and no image; when `HandleWrapRequest` runs
`WrapImage` on them (the path parses to this pair and the cache has no entry for it),
it responds with status 500, attempts no push, and leaves the cache unchanged. -/
theorem C6_misbuilt_wrapper_fails_without_push (W : World) (up tg : Str) (U Wr : Image)
    (hU : (pullImage W up).1 = Except.ok U) (hW : (pullImage W tg).1 = Except.ok Wr)
    (hbad : (∃ cw, Wr.ConfigFile = Except.ok cw ∧ cw.Config.Labels WrapperLabelKey = none) ∨
      Wr.Layers = Except.ok []) :
    (∃ e, (WrapImage W up tg).1 = Except.error e) ∧
    ∀ (c : Cache) (p : Str) (ref : ImageRef), ParseImageRef p = Except.ok ref →
      ref.UpstreamImage = up → ref.TargetImage = tg → c.Has (Cache.Key up tg) = false →
      (∃ e, (HandleWrapRequest W c p).response = Response.error e 500) ∧
      (∀ r i, Event.push r i ∉ (HandleWrapRequest W c p).events) ∧
      (HandleWrapRequest W c p).cache = c := by
  obtain ⟨e, he⟩ := WrapImage_misbuilt W up tg U Wr hU hW hbad
  refine ⟨⟨e, he⟩, ?_⟩
  intro c p ref hp hup htg hmiss
  subst hup
  subst htg
  obtain ⟨h1, h2, h3⟩ := HandleWrapRequest_wrap_error W c p ref e hp hmiss he
  exact ⟨⟨e, h1⟩, h3, h2⟩

/-- Witness of C6: the wrapper "reg.example/ns/bad:latest" has no layer and no label;
the request for it on an empty cache gets status 500 and the cache stays empty. -/
theorem C6_misbuilt_wrapper_fails_without_push_witness :
    (∃ e, (HandleWrapRequest exampleWorld NewCache
      "/v2/wrap/reg.example/ns/app/1.0/with/reg.example/ns/bad/latest/manifests/latest".toList
        ).response = Response.error e 500) ∧
    (∀ r i, Event.push r i ∉ (HandleWrapRequest exampleWorld NewCache
      "/v2/wrap/reg.example/ns/app/1.0/with/reg.example/ns/bad/latest/manifests/latest".toList
        ).events) ∧
    (HandleWrapRequest exampleWorld NewCache
      "/v2/wrap/reg.example/ns/app/1.0/with/reg.example/ns/bad/latest/manifests/latest".toList
        ).cache = NewCache :=
  (C6_misbuilt_wrapper_fails_without_push exampleWorld "reg.example/ns/app:1.0".toList
    "reg.example/ns/bad:latest".toList exampleUpstream exampleBadWrapper rfl rfl
    (Or.inr rfl)).2 NewCache
    "/v2/wrap/reg.example/ns/app/1.0/with/reg.example/ns/bad/latest/manifests/latest".toList
    { Path := "/wrap/reg.example/ns/app/1.0/with/reg.example/ns/bad/latest".toList
      UpstreamImage := "reg.example/ns/app:1.0".toList
      TargetImage := "reg.example/ns/bad:latest".toList }
    (by rfl) rfl rfl rfl

theorem HandleWrapRequest_published (W : World) (c : Cache) (p : Str) (ref : ImageRef)
    (img : Image) (tref : Str) (hp : ParseImageRef p = Except.ok ref)
    (hmiss : c.Has (Cache.Key ref.UpstreamImage ref.TargetImage) = false)
    (hw : (WrapImage W ref.UpstreamImage ref.TargetImage).1 = Except.ok img)
    (href : W.ParseReference ("localhost:5000".toList ++ ref.Path) = Except.ok tref)
    (hpush : W.Write tref img = none) :
    HandleWrapRequest W c p =
      { cache := c.Set (Cache.Key ref.UpstreamImage ref.TargetImage)
        response := Response.forwarded
        events := (WrapImage W ref.UpstreamImage ref.TargetImage).2
          ++ [Event.push tref img] } := by
  rw [HandleWrapRequest_parsed W c p ref hp]
  cases hwi : WrapImage W ref.UpstreamImage ref.TargetImage with
  | mk r ev =>
    rw [hwi] at hw
    simp only at hw
    subst hw
    simp only [hmiss, Bool.false_eq_true, if_false, href, hpush]

theorem HandleWrapRequest_push_error (W : World) (c : Cache) (p : Str) (ref : ImageRef)
    (img : Image) (hp : ParseImageRef p = Except.ok ref)
    (hmiss : c.Has (Cache.Key ref.UpstreamImage ref.TargetImage) = false)
    (hw : (WrapImage W ref.UpstreamImage ref.TargetImage).1 = Except.ok img)
    (hfail : (∃ e, W.ParseReference ("localhost:5000".toList ++ ref.Path) = Except.error e) ∨
      ∃ tref e, W.ParseReference ("localhost:5000".toList ++ ref.Path) = Except.ok tref ∧
        W.Write tref img = some e) :
    (∃ msg, (HandleWrapRequest W c p).response = Response.error msg 500) ∧
      (HandleWrapRequest W c p).cache = c := by
  rw [HandleWrapRequest_parsed W c p ref hp]
  cases hwi : WrapImage W ref.UpstreamImage ref.TargetImage with
  | mk r ev =>
    rw [hwi] at hw
    simp only at hw
    subst hw
    simp only [hmiss, Bool.false_eq_true, if_false]
    rcases hfail with ⟨e, he⟩ | ⟨tref, e, hr, he⟩
    · simp only [he]
      exact ⟨⟨_, rfl⟩, trivial⟩
    · simp only [hr, he]
      exact ⟨⟨_, rfl⟩, trivial⟩

/-- The cache after a request is the cache before it, unless the request was parsed,
missed the cache, and pull, composition and push all succeeded. -/
theorem HandleWrapRequest_cache (W : World) (c : Cache) (p : Str) :
    (HandleWrapRequest W c p).cache = c ∨
      ∃ ref img tref, ParseImageRef p = Except.ok ref ∧
        c.Has (Cache.Key ref.UpstreamImage ref.TargetImage) = false ∧
        (WrapImage W ref.UpstreamImage ref.TargetImage).1 = Except.ok img ∧
        W.ParseReference ("localhost:5000".toList ++ ref.Path) = Except.ok tref ∧
        W.Write tref img = none ∧
        (HandleWrapRequest W c p).cache
          = c.Set (Cache.Key ref.UpstreamImage ref.TargetImage) ∧
        (HandleWrapRequest W c p).response = Response.forwarded := by
  by_cases hm : MatchString ManifestRequestRegexp p = true
  · cases hp : ParseImageRef p with
    | error e =>
      left
      rw [HandleWrapRequest_parse_error W c p e hm hp]
    | ok ref =>
      by_cases hhit : c.Has (Cache.Key ref.UpstreamImage ref.TargetImage) = true
      · left
        rw [HandleWrapRequest_parsed W c p ref hp]
        simp only [hhit, if_true]
      · have hmiss : c.Has (Cache.Key ref.UpstreamImage ref.TargetImage) = false := by
          simpa using hhit
        cases hw : (WrapImage W ref.UpstreamImage ref.TargetImage).1 with
        | error e =>
          left
          exact (HandleWrapRequest_wrap_error W c p ref e hp hmiss hw).2.1
        | ok img =>
          cases href : W.ParseReference ("localhost:5000".toList ++ ref.Path) with
          | error e =>
            left
            exact (HandleWrapRequest_push_error W c p ref img hp hmiss hw
              (Or.inl ⟨e, href⟩)).2
          | ok tref =>
            cases hpush : W.Write tref img with
            | some e =>
              left
              exact (HandleWrapRequest_push_error W c p ref img hp hmiss hw
                (Or.inr ⟨tref, e, href, hpush⟩)).2
            | none =>
              right
              refine ⟨ref, img, tref, rfl, hmiss, hw, href, hpush, ?_, ?_⟩
              · rw [HandleWrapRequest_published W c p ref img tref hp hmiss hw href hpush]
              · rw [HandleWrapRequest_published W c p ref img tref hp hmiss hw href hpush]
  · left
    have hm' : MatchString ManifestRequestRegexp p = false := by simpa using hm
    rw [HandleWrapRequest_not_manifest W c p hm']

/-- C3: the cache after `HandleWrapRequest` equals the cache before it unless pull,
composition and the push all succeeded, and then exactly the key
`Key(UpstreamImage, TargetImage)` of the parsed request has been added.  A step fails
when the handler runs it and it returns an error; the handler parses the paths that
match the manifest pattern, and pulls, composes and pushes after a cache miss.  When
parsing fails the response is status 400 with the parser's message; when a pull, the
composition or the push (the parse of the target reference or the write) fails the
response is status 500; in each case the request is not forwarded, and the cache is
unchanged; nothing is pushed when the pull or the composition fails.  When, after a
cache miss, pull, composition and the push all succeed, the cache afterwards is the
cache before with the key added: the key is marked, every other key is marked exactly
when it was before, and the request is forwarded. -/
theorem C3_cache_marked_only_after_publish (W : World) (c : Cache) (p : Str) :
    ((HandleWrapRequest W c p).cache = c ∨
      ∃ ref img tref, ParseImageRef p = Except.ok ref ∧
        c.Has (Cache.Key ref.UpstreamImage ref.TargetImage) = false ∧
        (WrapImage W ref.UpstreamImage ref.TargetImage).1 = Except.ok img ∧
        W.ParseReference ("localhost:5000".toList ++ ref.Path) = Except.ok tref ∧
        W.Write tref img = none ∧
        (HandleWrapRequest W c p).cache
          = c.Set (Cache.Key ref.UpstreamImage ref.TargetImage) ∧
        (HandleWrapRequest W c p).response = Response.forwarded) ∧
    (∀ e, MatchString ManifestRequestRegexp p = true → ParseImageRef p = Except.error e →
      (HandleWrapRequest W c p).response = Response.error e 400 ∧
      (HandleWrapRequest W c p).cache = c ∧ (HandleWrapRequest W c p).events = []) ∧
    (∀ ref e, ParseImageRef p = Except.ok ref →
      c.Has (Cache.Key ref.UpstreamImage ref.TargetImage) = false →
      ((pullImage W ref.UpstreamImage).1 = Except.error e ∨
        ∃ U, (pullImage W ref.UpstreamImage).1 = Except.ok U ∧
          (pullImage W ref.TargetImage).1 = Except.error e) →
      (HandleWrapRequest W c p).response = Response.error e 500 ∧
      (HandleWrapRequest W c p).cache = c ∧
      ∀ r i, Event.push r i ∉ (HandleWrapRequest W c p).events) ∧
    (∀ ref e, ParseImageRef p = Except.ok ref →
      c.Has (Cache.Key ref.UpstreamImage ref.TargetImage) = false →
      (WrapImage W ref.UpstreamImage ref.TargetImage).1 = Except.error e →
      (HandleWrapRequest W c p).response = Response.error e 500 ∧
      (HandleWrapRequest W c p).cache = c ∧
      ∀ r i, Event.push r i ∉ (HandleWrapRequest W c p).events) ∧
    (∀ ref img, ParseImageRef p = Except.ok ref →
      c.Has (Cache.Key ref.UpstreamImage ref.TargetImage) = false →
      (WrapImage W ref.UpstreamImage ref.TargetImage).1 = Except.ok img →
      ((∃ e, W.ParseReference ("localhost:5000".toList ++ ref.Path) = Except.error e) ∨
        ∃ tref e, W.ParseReference ("localhost:5000".toList ++ ref.Path) = Except.ok tref ∧
          W.Write tref img = some e) →
      (∃ msg, (HandleWrapRequest W c p).response = Response.error msg 500) ∧
      (HandleWrapRequest W c p).cache = c) ∧
    (∀ ref img tref, ParseImageRef p = Except.ok ref →
      c.Has (Cache.Key ref.UpstreamImage ref.TargetImage) = false →
      (WrapImage W ref.UpstreamImage ref.TargetImage).1 = Except.ok img →
      W.ParseReference ("localhost:5000".toList ++ ref.Path) = Except.ok tref →
      W.Write tref img = none →
      (HandleWrapRequest W c p).cache
        = c.Set (Cache.Key ref.UpstreamImage ref.TargetImage) ∧
      (HandleWrapRequest W c p).cache.Has
        (Cache.Key ref.UpstreamImage ref.TargetImage) = true ∧
      (∀ k, (HandleWrapRequest W c p).cache.Has k = true ↔
        k = Cache.Key ref.UpstreamImage ref.TargetImage ∨ c.Has k = true) ∧
      (HandleWrapRequest W c p).response = Response.forwarded ∧
      Event.push tref img ∈ (HandleWrapRequest W c p).events) := by
  refine ⟨HandleWrapRequest_cache W c p, ?_, ?_, ?_, ?_, ?_⟩
  · intro e hm hp
    rw [HandleWrapRequest_parse_error W c p e hm hp]
    exact ⟨rfl, rfl, rfl⟩
  · intro ref e hp hmiss hpull
    exact HandleWrapRequest_wrap_error W c p ref e hp hmiss
      (WrapImage_pull_error W _ _ e hpull)
  · intro ref e hp hmiss hw
    exact HandleWrapRequest_wrap_error W c p ref e hp hmiss hw
  · intro ref img hp hmiss hw hfail
    exact HandleWrapRequest_push_error W c p ref img hp hmiss hw hfail
  · intro ref img tref hp hmiss hw href hpush
    rw [HandleWrapRequest_published W c p ref img tref hp hmiss hw href hpush]
    refine ⟨rfl, (Has_Set c _ _).2 (Or.inl rfl), fun k => Has_Set c _ k, rfl, ?_⟩
    simp

/-- Witness of C3: in a world where the push fails, the request on an empty cache gets
status 500 and the cache stays empty; in a world where every step succeeds, the same
request marks its key and is forwarded. -/
theorem C3_cache_marked_only_after_publish_witness :
    ((∃ msg, (HandleWrapRequest examplePushFails NewCache
      "/v2/wrap/reg.example/ns/app/1.0/with/reg.example/ns/wrapper/latest/manifests/latest".toList
        ).response = Response.error msg 500) ∧
    (HandleWrapRequest examplePushFails NewCache
      "/v2/wrap/reg.example/ns/app/1.0/with/reg.example/ns/wrapper/latest/manifests/latest".toList
        ).cache = NewCache) ∧
    ((HandleWrapRequest exampleWorld NewCache
      "/v2/wrap/reg.example/ns/app/1.0/with/reg.example/ns/wrapper/latest/manifests/latest".toList
        ).cache = NewCache.Set
          (Cache.Key "reg.example/ns/app:1.0".toList "reg.example/ns/wrapper:latest".toList) ∧
    (HandleWrapRequest exampleWorld NewCache
      "/v2/wrap/reg.example/ns/app/1.0/with/reg.example/ns/wrapper/latest/manifests/latest".toList
        ).cache.Has
          (Cache.Key "reg.example/ns/app:1.0".toList "reg.example/ns/wrapper:latest".toList)
        = true ∧
    (HandleWrapRequest exampleWorld NewCache
      "/v2/wrap/reg.example/ns/app/1.0/with/reg.example/ns/wrapper/latest/manifests/latest".toList
        ).response = Response.forwarded) :=
  ⟨(C3_cache_marked_only_after_publish examplePushFails NewCache
      "/v2/wrap/reg.example/ns/app/1.0/with/reg.example/ns/wrapper/latest/manifests/latest".toList
      ).2.2.2.2.1
      { Path := "/wrap/reg.example/ns/app/1.0/with/reg.example/ns/wrapper/latest".toList
        UpstreamImage := "reg.example/ns/app:1.0".toList
        TargetImage := "reg.example/ns/wrapper:latest".toList }
      exampleComposed
      (by rfl) rfl (by rfl)
      (Or.inr ⟨_, "connection refused", rfl, rfl⟩),
    have h := (C3_cache_marked_only_after_publish exampleWorld NewCache
      "/v2/wrap/reg.example/ns/app/1.0/with/reg.example/ns/wrapper/latest/manifests/latest".toList
      ).2.2.2.2.2
      { Path := "/wrap/reg.example/ns/app/1.0/with/reg.example/ns/wrapper/latest".toList
        UpstreamImage := "reg.example/ns/app:1.0".toList
        TargetImage := "reg.example/ns/wrapper:latest".toList }
      exampleComposed
      ("localhost:5000".toList
        ++ "/wrap/reg.example/ns/app/1.0/with/reg.example/ns/wrapper/latest".toList)
      (by rfl) rfl (by rfl) rfl rfl
    ⟨h.1, h.2.1, h.2.2.2.1⟩⟩

theorem HandleWrapRequest_hit (W : World) (c : Cache) (p : Str) (ref : ImageRef)
    (hp : ParseImageRef p = Except.ok ref)
    (hhit : c.Has (Cache.Key ref.UpstreamImage ref.TargetImage) = true) :
    HandleWrapRequest W c p = { cache := c, response := Response.forwarded, events := [] } := by
  rw [HandleWrapRequest_parsed W c p ref hp]
  simp only [hhit, if_true]

/-- C4: for every path `p` that `ParseImageRef` accepts and every initial cache, if
composition and publish succeed in a first call of `HandleWrapRequest` on `p`, the
first call is answered by the backing registry and leaves the key of the request in
the cache, and a second call on `p`, run on the cache the first call left and in any
state `W2` of the collaborators, hits the cache: it performs no pull and no push (its
result does not depend on any collaborator), leaves the cache as it is, and only
forwards the request to the backing registry. -/
theorem C4_second_request_hits_cache (W W2 : World) (c : Cache) (p : Str) (ref : ImageRef)
    (img : Image) (tref : Str) (hp : ParseImageRef p = Except.ok ref)
    (hw : (WrapImage W ref.UpstreamImage ref.TargetImage).1 = Except.ok img)
    (href : W.ParseReference ("localhost:5000".toList ++ ref.Path) = Except.ok tref)
    (hpush : W.Write tref img = none) :
    (HandleWrapRequest W c p).response = Response.forwarded ∧
    (HandleWrapRequest W c p).cache.Has
      (Cache.Key ref.UpstreamImage ref.TargetImage) = true ∧
    (HandleWrapRequest W2 (HandleWrapRequest W c p).cache p).events = [] ∧
    (HandleWrapRequest W2 (HandleWrapRequest W c p).cache p).response = Response.forwarded ∧
    (HandleWrapRequest W2 (HandleWrapRequest W c p).cache p).cache
      = (HandleWrapRequest W c p).cache := by
  have h1 : (HandleWrapRequest W c p).response = Response.forwarded ∧
      (HandleWrapRequest W c p).cache.Has
        (Cache.Key ref.UpstreamImage ref.TargetImage) = true := by
    by_cases hhit : c.Has (Cache.Key ref.UpstreamImage ref.TargetImage) = true
    · rw [HandleWrapRequest_hit W c p ref hp hhit]
      exact ⟨rfl, hhit⟩
    · have hmiss : c.Has (Cache.Key ref.UpstreamImage ref.TargetImage) = false := by
        simpa using hhit
      rw [HandleWrapRequest_published W c p ref img tref hp hmiss hw href hpush]
      exact ⟨rfl, (Has_Set c _ _).2 (Or.inl rfl)⟩
  refine ⟨h1.1, h1.2, ?_⟩
  rw [HandleWrapRequest_hit W2 _ p ref hp h1.2]
  exact ⟨rfl, rfl, rfl⟩

/-- Witness of C4: the request for "reg.example/ns/app/1.0" wrapped with
"reg.example/ns/wrapper/latest" on an empty cache, then again in a world where every
push fails. -/
theorem C4_second_request_hits_cache_witness :
    (HandleWrapRequest exampleWorld NewCache
      "/v2/wrap/reg.example/ns/app/1.0/with/reg.example/ns/wrapper/latest/manifests/latest".toList
        ).response = Response.forwarded ∧
    (HandleWrapRequest examplePushFails
      (HandleWrapRequest exampleWorld NewCache
        "/v2/wrap/reg.example/ns/app/1.0/with/reg.example/ns/wrapper/latest/manifests/latest".toList
          ).cache
      "/v2/wrap/reg.example/ns/app/1.0/with/reg.example/ns/wrapper/latest/manifests/latest".toList
        ).events = [] ∧
    (HandleWrapRequest examplePushFails
      (HandleWrapRequest exampleWorld NewCache
        "/v2/wrap/reg.example/ns/app/1.0/with/reg.example/ns/wrapper/latest/manifests/latest".toList
          ).cache
      "/v2/wrap/reg.example/ns/app/1.0/with/reg.example/ns/wrapper/latest/manifests/latest".toList
        ).response = Response.forwarded :=
  have h := C4_second_request_hits_cache exampleWorld examplePushFails NewCache
    "/v2/wrap/reg.example/ns/app/1.0/with/reg.example/ns/wrapper/latest/manifests/latest".toList
    { Path := "/wrap/reg.example/ns/app/1.0/with/reg.example/ns/wrapper/latest".toList
      UpstreamImage := "reg.example/ns/app:1.0".toList
      TargetImage := "reg.example/ns/wrapper:latest".toList }
    exampleComposed
    ("localhost:5000".toList
      ++ "/wrap/reg.example/ns/app/1.0/with/reg.example/ns/wrapper/latest".toList)
    (by rfl) (by rfl) rfl rfl
  ⟨h.1, h.2.2.1, h.2.2.2.1⟩

end Goci
